import Mathlib

/-!
Verification of the CVS coupon email scraper.

The definitions below are a shallow embedding of the JavaScript sources:
src/email-service.js (query building, message listing, metadata
extraction), src/utils.js (persistence and phone-number cross-reference)
and src/auth.js (OAuth token bootstrap, manual and local-callback
variants).  Network and file-system effects are modelled by explicit
oracle parameters; a thrown JavaScript error is modelled by Except.error
carrying the error message.
-/

namespace CVScrape

/-- A value the timestamp field of a record can hold: a proper integer,
the JavaScript NaN (what parseInt returns on a non-numeric string), or
null. -/
inductive TsVal where
  | null : TsVal
  | nan : TsVal
  | int (n : Int) : TsVal
deriving DecidableEq, Repr

/-- One entry of response.data.payload.headers in a messages.get reply. -/
structure Header where
  name : String
  value : String
deriving DecidableEq, Repr

/-- The part of a messages.get response that extractEmailData reads:
response.data.payload.headers and response.data.internalDate.
payload = none models a response without a usable payload/headers, which
makes the destructuring in extractEmailData throw a TypeError. -/
structure GetResp where
  payload : Option (List Header)
  internalDate : Option String
deriving DecidableEq, Repr

/-- A message reference returned by gmail.users.messages.list. -/
structure MessageRef where
  id : String
deriving DecidableEq, Repr

/-- Oracle for the authenticated Gmail client: the result of the single
messages.list call (as a function of the query string and maxResults),
and the result of messages.get for each message id. -/
structure GmailClient where
  listResult : String → Nat → Except String (Option (List MessageRef))
  getResult : String → Except String GetResp

/-- The maxResults cap passed to messages.list in fetchCVSEmails. -/
def listMaxResults : Nat := 500

/-- A local calendar date as seen through the JavaScript accessors
getFullYear / getMonth (shifted to 1-based here) / getDate. -/
structure CivilDate where
  year : Nat
  month : Nat
  day : Nat
deriving DecidableEq, Repr

/-- Number of days of month m of year y in the Gregorian calendar. -/
def daysInMonth (y m : Nat) : Nat :=
  if m = 2 then (if (y % 4 = 0 ∧ y % 100 ≠ 0) ∨ y % 400 = 0 then 29 else 28)
  else if m = 4 ∨ m = 6 ∨ m = 9 ∨ m = 11 then 30 else 31

/-- Validity of a civil date (month in range, day within the month). -/
def CivilDate.Valid (d : CivilDate) : Prop :=
  1 ≤ d.year ∧ 1 ≤ d.month ∧ d.month ≤ 12 ∧ 1 ≤ d.day ∧ d.day ≤ daysInMonth d.year d.month

instance (d : CivilDate) : Decidable d.Valid := by
  unfold CivilDate.Valid
  infer_instance

/-- Model of String(n).padStart(2, the zero digit) for n below 100. -/
def pad2 (n : Nat) : String :=
  if n < 10 then "0" ++ toString n else toString n

/-- Model of formatDate in src/email-service.js: yyyy/MM/dd from the
local date fields. -/
def formatDate (d : CivilDate) : String :=
  toString d.year ++ "/" ++ pad2 d.month ++ "/" ++ pad2 d.day

/-- Model of sixDaysAgo.setDate(sixDaysAgo.getDate() - 6): Date.setDate
with an argument that may be as low as -5 normalises by borrowing at
most one month. -/
def setDateMinus6 (d : CivilDate) : CivilDate :=
  if 7 ≤ d.day then ⟨d.year, d.month, d.day - 6⟩
  else if d.month = 1 then ⟨d.year - 1, 12, daysInMonth (d.year - 1) 12 + d.day - 6⟩
  else ⟨d.year, d.month - 1, daysInMonth d.year (d.month - 1) + d.day - 6⟩

/-- Going back one local calendar day.  Iterating this six times is the
specification-side meaning of "now minus 6 local calendar days". -/
def prevCalendarDay (d : CivilDate) : CivilDate :=
  if 2 ≤ d.day then ⟨d.year, d.month, d.day - 1⟩
  else if d.month = 1 then ⟨d.year - 1, 12, 31⟩
  else ⟨d.year, d.month - 1, daysInMonth d.year (d.month - 1)⟩

/-- The Gmail search query built by fetchCVSEmails for an injected
current date. -/
def cvsQuery (now : CivilDate) : String :=
  "label:CVS subject:$4 Coupon! after:" ++ formatDate (setDateMinus6 now)

/-- Characters trimmed from the front of the argument of parseInt. -/
def isWsChar (c : Char) : Bool :=
  [' ', '\t', '\n', '\r', '\x0b', '\x0c'].contains c

/-- Decimal digit value of a character, if any (code points 48 to 57). -/
def decDigit? (c : Char) : Option Nat :=
  if 48 ≤ c.toNat ∧ c.toNat ≤ 57 then some (c.toNat - 48) else none

/-- Hexadecimal digit value of a character, if any. -/
def hexDigit? (c : Char) : Option Nat :=
  if 48 ≤ c.toNat ∧ c.toNat ≤ 57 then some (c.toNat - 48)
  else if 97 ≤ c.toNat ∧ c.toNat ≤ 102 then some (c.toNat - 97 + 10)
  else if 65 ≤ c.toNat ∧ c.toNat ≤ 70 then some (c.toNat - 65 + 10)
  else none

/-- Longest prefix of digit values recognised by the given digit reader. -/
def takeDigits (digit? : Char → Option Nat) : List Char → List Nat
  | [] => []
  | c :: cs =>
    match digit? c with
    | some d => d :: takeDigits digit? cs
    | none => []

/-- Model of the JavaScript parseInt builtin applied to a string with no
radix argument: trim leading whitespace, read an optional sign, switch
to base 16 after a 0x or 0X prefix, then read the longest digit prefix;
none models the NaN result when no digit is found. -/
def jsParseInt (s : String) : Option Int :=
  let cs0 := s.toList.dropWhile isWsChar
  let signed : Int × List Char :=
    match cs0 with
    | '-' :: rest => (-1, rest)
    | '+' :: rest => (1, rest)
    | rest => (1, rest)
  let based : Nat × List Char :=
    match signed.2 with
    | '0' :: 'x' :: rest => (16, rest)
    | '0' :: 'X' :: rest => (16, rest)
    | rest => (10, rest)
  let ds := takeDigits (if based.1 = 16 then hexDigit? else decDigit?) based.2
  if ds.isEmpty then none
  else some (signed.1 * (ds.foldl (fun a d => a * (based.1 : Int) + (d : Int)) 0))

/-- Model of the timestamp field computation in extractEmailData:
response.data.internalDate ? parseInt(response.data.internalDate) : null.
An absent or empty (falsy) internalDate gives null; otherwise the
parseInt result, which is NaN when the string has no numeric prefix. -/
def tsOfInternalDate : Option String → TsVal
  | none => .null
  | some s =>
    if s = "" then .null
    else
      match jsParseInt s with
      | some n => .int n
      | none => .nan

/-- One extracted record.  error = none models the success-path object
(keys id, to, date, timestamp); error = some msg models the catch-path
object (keys id, error, subject, from, to, date, timestamp with the data
fields null). -/
structure EmailRecord where
  id : String
  «to» : Option String
  date : Option String
  timestamp : TsVal
  error : Option String
deriving DecidableEq, Repr

/-- Model of getHeaderValue in src/email-service.js: first header whose
name matches exactly, else null. -/
def getHeaderValue (headers : List Header) (name : String) : Option String :=
  (headers.find? (fun h => h.name == name)).map Header.value

/-- Message of the TypeError thrown when response.data.payload cannot be
destructured. -/
def destructureErrorMsg : String :=
  "Cannot destructure property headers of response.data.payload as it is undefined"

/-- Model of extractEmailData in src/email-service.js: fetch metadata
for one message id; on success build the record from the To and Date
headers and internalDate; any thrown error is caught and turned into a
record with the error message and null data fields. -/
def extractEmailData (get : String → Except String GetResp) (messageId : String) : EmailRecord :=
  match get messageId with
  | .error msg =>
    { id := messageId, «to» := none, date := none, timestamp := .null, error := some msg }
  | .ok resp =>
    match resp.payload with
    | none =>
      { id := messageId, «to» := none, date := none, timestamp := .null,
        error := some destructureErrorMsg }
    | some headers =>
      { id := messageId,
        «to» := getHeaderValue headers "To",
        date := getHeaderValue headers "Date",
        timestamp := tsOfInternalDate resp.internalDate,
        error := none }

/-- Model of fetchCVSEmails in src/email-service.js: build the query
from the injected current date, call messages.list once with the 500
cap, default a missing messages field to the empty list, return early on
zero messages, otherwise extract every listed message in order.  A
throwing list call is logged and re-thrown. -/
def fetchCVSEmails (gmail : GmailClient) (now : CivilDate) :
    Except String (List EmailRecord) :=
  match gmail.listResult (cvsQuery now) listMaxResults with
  | .error e => .error e
  | .ok data =>
    let messages := data.getD []
    if messages.length = 0 then .ok []
    else .ok (messages.map (fun m => extractEmailData gmail.getResult m.id))

/-- Fixture: an injected current date. -/
def nowW : CivilDate := ⟨2024, 3, 10⟩

/-- Fixture: two listed message refs. -/
def refsW : List MessageRef := [⟨"m1"⟩, ⟨"m2"⟩]

/-- Fixture: a client whose list call returns refsW and whose get call
succeeds for m1 and throws for m2. -/
def gW : GmailClient where
  listResult := fun _ _ => .ok (some refsW)
  getResult := fun mid =>
    if mid = "m1" then
      .ok ⟨some [⟨"To", "a@x.com"⟩, ⟨"Date", "Sun, 10 Mar 2024"⟩], some "1710000000000"⟩
    else .error "network down"

/-- Fixture: a client whose list call matches zero messages. -/
def gEmptyW : GmailClient where
  listResult := fun _ _ => .ok (some [])
  getResult := fun _ => .error "unused"

/-! ## JSON values, printing and parsing

Model of the JSON features the program uses: JSON.stringify(emails,
null, 2) in saveEmailData, and JSON.parse on the mapping file and the
cached token file.  Numbers are exact decimals m * 10 ^ e (the program
itself only ever prints integers).  Surrogate escape pairs, which Lean
strings cannot represent, are outside the model. -/

/-- A JSON value. -/
inductive Json where
  | null : Json
  | bool (b : Bool) : Json
  | num (m : Int) (e : Int) : Json
  | str (s : String) : Json
  | arr (xs : List Json) : Json
  | obj (fields : List (String × Json)) : Json
deriving Repr

/-- Lower-case hexadecimal digit character for a value below sixteen. -/
def hexDigitChar (n : Nat) : Char :=
  if n < 10 then Char.ofNat (48 + n) else Char.ofNat (87 + n)

/-- JSON.stringify escaping of one character of a string value. -/
def escapeChar (c : Char) : List Char :=
  if c = '"' then ['\\', '"']
  else if c = '\\' then ['\\', '\\']
  else if c = '\x08' then ['\\', 'b']
  else if c = '\t' then ['\\', 't']
  else if c = '\n' then ['\\', 'n']
  else if c = '\x0c' then ['\\', 'f']
  else if c = '\r' then ['\\', 'r']
  else if c.toNat < 32 then
    '\\' :: 'u' :: '0' :: '0' :: hexDigitChar (c.toNat / 16) ::
      [hexDigitChar (c.toNat % 16)]
  else [c]

/-- The characters of a JSON string literal for s, quotes included. -/
def quoteChars (s : String) : List Char :=
  '"' :: (s.toList.flatMap escapeChar) ++ ['"']

/-- Decimal digit character for a value below ten. -/
def digitChar (n : Nat) : Char := Char.ofNat (48 + n)

/-- Big-endian decimal digits of n, with structural fuel. -/
def natChars : Nat → Nat → List Char
  | 0, _ => []
  | fuel + 1, n =>
    if n < 10 then [digitChar n]
    else natChars fuel (n / 10) ++ [digitChar (n % 10)]

/-- Decimal notation of a natural number. -/
def natToChars (n : Nat) : List Char := natChars (n + 1) n

/-- JavaScript decimal notation of an integral number. -/
def intToChars (i : Int) : List Char :=
  if i < 0 then '-' :: natToChars i.natAbs else natToChars i.natAbs

/-- Notation for a model number m * 10 ^ e: the program only prints
integers (e = 0), rendered in plain decimal. -/
def numChars (m : Int) : Int → List Char
  | 0 => intToChars m
  | e => intToChars m ++ 'e' :: intToChars e

/-- JSON value of a nullable string field. -/
def optStrJson : Option String → Json
  | none => .null
  | some s => .str s

/-- JSON value JSON.stringify renders for a timestamp field: NaN is not
representable in JSON and serialises as null. -/
def tsJson : TsVal → Json
  | .null => .null
  | .nan => .null
  | .int n => .num n 0

/-- Key/value sequence of the object literal extractEmailData built, in
insertion order: the success shape has keys id, to, date, timestamp; the
catch shape has keys id, error, subject, from, to, date, timestamp with
subject and from always null. -/
def recordFields (r : EmailRecord) : List (String × Json) :=
  match r.error with
  | none =>
    [("id", .str r.id), ("to", optStrJson r.«to»), ("date", optStrJson r.date),
      ("timestamp", tsJson r.timestamp)]
  | some e =>
    [("id", .str r.id), ("error", .str e), ("subject", .null), ("from", .null),
      ("to", optStrJson r.«to»), ("date", optStrJson r.date),
      ("timestamp", tsJson r.timestamp)]

/-- Characters JSON.stringify emits for a scalar field value; an
EmailRecord only ever contains scalar fields, so the composite cases
cannot occur in a record. -/
def scalarChars : Json → List Char
  | .null => 'n' :: 'u' :: 'l' :: ['l']
  | .bool true => 't' :: 'r' :: 'u' :: ['e']
  | .bool false => 'f' :: 'a' :: 'l' :: 's' :: ['e']
  | .num m e => numChars m e
  | .str s => quoteChars s
  | .arr _ => []
  | .obj _ => []

/-- Concatenation with a separator between items. -/
def joinSep (sep : List Char) : List (List Char) → List Char
  | [] => []
  | x :: xs =>
    match xs with
    | [] => x
    | _ :: _ => x ++ sep ++ joinSep sep xs

/-- One key/value rendering inside a record object. -/
def fieldChars (kv : String × Json) : List Char :=
  quoteChars kv.1 ++ ':' :: ' ' :: scalarChars kv.2

/-- Characters of one record object as JSON.stringify(*, null, 2)
renders it one level inside the array: field lines indented four spaces,
closing brace indented two.  recordFields is never empty, so the empty
object rendering cannot occur here. -/
def recordObjChars (r : EmailRecord) : List Char :=
  '\x7b' :: '\n' ::
    joinSep [',', '\n']
      ((recordFields r).map (fun kv => [' ', ' ', ' ', ' '] ++ fieldChars kv)) ++
    '\n' :: [' ', ' ', '\x7d']

/-- Characters JSON.stringify(emails, null, 2) produces for the full
email array: records indented two spaces, separated by comma-newline. -/
def printEmailsJson (emails : List EmailRecord) : List Char :=
  match emails with
  | [] => ['[', ']']
  | rs =>
    '[' :: '\n' ::
      joinSep [',', '\n'] (rs.map (fun r => [' ', ' '] ++ recordObjChars r)) ++
      '\n' :: [']']

/-- The JSON value tree of the written email array. -/
def encodeEmails (emails : List EmailRecord) : Json :=
  .arr (emails.map (fun r => .obj (recordFields r)))

/-- Reading a nullable string field back from JSON. -/
def decodeOptStr : Json → Option (Option String)
  | .null => some none
  | .str s => some (some s)
  | _ => none

/-- Reading a timestamp field back from JSON. -/
def decodeTs : Json → Option TsVal
  | .null => some .null
  | .num n 0 => some (.int n)
  | _ => none

/-- Reading one record back from a parsed JSON object, inverting the two
shapes of recordFields. -/
def decodeRecord : Json → Option EmailRecord
  | .obj [("id", .str i), ("to", tv), ("date", dv), ("timestamp", sv)] =>
    (match decodeOptStr tv, decodeOptStr dv, decodeTs sv with
     | some t, some d, some ts => some ⟨i, t, d, ts, none⟩
     | _, _, _ => none)
  | .obj [("id", .str i), ("error", .str e), ("subject", .null), ("from", .null),
      ("to", tv), ("date", dv), ("timestamp", sv)] =>
    (match decodeOptStr tv, decodeOptStr dv, decodeTs sv with
     | some t, some d, some ts => some ⟨i, t, d, ts, some e⟩
     | _, _, _ => none)
  | _ => none

/-- Reading the record sequence back from parsed JSON. -/
def decodeEmails : Json → Option (List EmailRecord)
  | .arr xs => xs.mapM decodeRecord
  | _ => none

/-- JSON whitespace. -/
def isJsonWs (c : Char) : Bool :=
  [' ', '\t', '\n', '\r'].contains c

/-- Skipping JSON whitespace. -/
def skipWs (cs : List Char) : List Char := cs.dropWhile isJsonWs

/-- Parsing the body of a JSON string literal (after the opening quote),
undoing the escapes; returns the decoded characters and the characters
after the closing quote. -/
def parseStrChars : List Char → Option (List Char × List Char)
  | [] => none
  | c :: cs =>
    if c = '"' then some ([], cs)
    else if c = '\\' then
      match cs with
      | [] => none
      | e :: cs2 =>
        if e = '"' then (parseStrChars cs2).map (fun p => ('"' :: p.1, p.2))
        else if e = '\\' then (parseStrChars cs2).map (fun p => ('\\' :: p.1, p.2))
        else if e = '/' then (parseStrChars cs2).map (fun p => ('/' :: p.1, p.2))
        else if e = 'b' then (parseStrChars cs2).map (fun p => ('\x08' :: p.1, p.2))
        else if e = 'f' then (parseStrChars cs2).map (fun p => ('\x0c' :: p.1, p.2))
        else if e = 'n' then (parseStrChars cs2).map (fun p => ('\n' :: p.1, p.2))
        else if e = 'r' then (parseStrChars cs2).map (fun p => ('\r' :: p.1, p.2))
        else if e = 't' then (parseStrChars cs2).map (fun p => ('\t' :: p.1, p.2))
        else if e = 'u' then
          match cs2 with
          | h1 :: h2 :: h3 :: h4 :: cs3 =>
            (match hexDigit? h1, hexDigit? h2, hexDigit? h3, hexDigit? h4 with
             | some a, some b, some c4, some d =>
               let code := ((a * 16 + b) * 16 + c4) * 16 + d
               if code < 55296 then
                 (parseStrChars cs3).map (fun p => (Char.ofNat code :: p.1, p.2))
               else none
             | _, _, _, _ => none)
          | _ => none
        else none
    else if c.toNat < 32 then none
    else (parseStrChars cs).map (fun p => (c :: p.1, p.2))

/-- Digit recognition for number parsing. -/
def isDigitCh (c : Char) : Bool := (decDigit? c).isSome

/-- Value of a big-endian run of decimal digit characters. -/
def valDigits (ds : List Char) : Nat :=
  ds.foldl (fun a c => a * 10 + ((decDigit? c).getD 0)) 0

/-- Optional fraction part: mantissa continued with the fraction digits
and the fraction length; a dot must be followed by at least one digit. -/
def parseFrac (ipart : Nat) : List Char → Option (Nat × Nat × List Char)
  | [] => some (ipart, 0, [])
  | c :: rest =>
    if c = '.' then
      (let fd := rest.takeWhile isDigitCh
       if fd.isEmpty then none
       else some (ipart * 10 ^ fd.length + valDigits fd, fd.length,
         rest.dropWhile isDigitCh))
    else some (ipart, 0, c :: rest)

/-- Optional exponent part of a JSON number. -/
def parseExp : List Char → Option (Int × List Char)
  | [] => some (0, [])
  | c :: rest =>
    if c = 'e' ∨ c = 'E' then
      let sgn2 : Bool × List Char :=
        match rest with
        | c2 :: r2 =>
          if c2 = '-' then (true, r2) else if c2 = '+' then (false, r2) else (false, rest)
        | [] => (false, [])
      let ed := sgn2.2.takeWhile isDigitCh
      if ed.isEmpty then none
      else some (if sgn2.1 then -(valDigits ed : Int) else (valDigits ed : Int),
        sgn2.2.dropWhile isDigitCh)
    else some (0, c :: rest)

/-- Parsing a JSON number after the optional minus sign: an integer part
without leading zeros, optional fraction, optional exponent. -/
def parseNumBody (neg : Bool) (cs : List Char) : Option (Json × List Char) :=
  match cs with
  | [] => none
  | c :: rest =>
    match decDigit? c with
    | none => none
    | some _ =>
      let ip : Nat × List Char :=
        if c = '0' then (0, rest)
        else (valDigits (c :: rest.takeWhile isDigitCh), rest.dropWhile isDigitCh)
      match parseFrac ip.1 ip.2 with
      | none => none
      | some (m0, flen, rest3) =>
        match parseExp rest3 with
        | none => none
        | some (ev, rest4) =>
          some (.num (if neg then -(m0 : Int) else (m0 : Int)) (ev - flen), rest4)

/-- Parsing a JSON number: optional minus, then the number body. -/
def parseNumber (cs : List Char) : Option (Json × List Char) :=
  match cs with
  | c :: rest => if c = '-' then parseNumBody true rest else parseNumBody false cs
  | [] => none

/-- Matching an expected literal continuation. -/
def expectChars : List Char → List Char → Option (List Char)
  | [], cs => some cs
  | _ :: _, [] => none
  | l :: ls, c :: cs => if c = l then expectChars ls cs else none

/-- Intermediate result of the recursive-descent JSON parser. -/
inductive PRes where
  | val (v : Json)
  | items (xs : List Json)
  | fields (fs : List (String × Json))
deriving Repr

/-- The recursive-descent JSON parser.  The mode selects the grammar
production: 0 parses one value, 1 the items of a non-empty array after
the opening bracket, 2 the fields of a non-empty object after the
opening brace.  The fuel decreases on every recursive call; two fuel
steps always consume at least one character, so 2n + 2 fuel suffices for
an input of n characters. -/
def parseCore : Nat → Nat → List Char → Option (PRes × List Char)
  | 0, _, _ => none
  | Nat.succ fuel, mode, cs =>
    if mode = 0 then
      match skipWs cs with
      | [] => none
      | c :: cs1 =>
        if c = 'n' then (expectChars ['u', 'l', 'l'] cs1).map (fun r => (.val .null, r))
        else if c = 't' then
          (expectChars ['r', 'u', 'e'] cs1).map (fun r => (.val (.bool true), r))
        else if c = 'f' then
          (expectChars ['a', 'l', 's', 'e'] cs1).map (fun r => (.val (.bool false), r))
        else if c = '"' then
          (parseStrChars cs1).map (fun p => (.val (.str (String.mk p.1)), p.2))
        else if c = '[' then
          match skipWs cs1 with
          | ']' :: cs2 => some (.val (.arr []), cs2)
          | _ =>
            match parseCore fuel 1 cs1 with
            | some (.items xs, rest) => some (.val (.arr xs), rest)
            | _ => none
        else if c = '\x7b' then
          match skipWs cs1 with
          | '\x7d' :: cs2 => some (.val (.obj []), cs2)
          | _ =>
            match parseCore fuel 2 cs1 with
            | some (.fields fs, rest) => some (.val (.obj fs), rest)
            | _ => none
        else (parseNumber (c :: cs1)).map (fun p => (.val p.1, p.2))
    else if mode = 1 then
      match parseCore fuel 0 cs with
      | some (.val v, rest) =>
        (match skipWs rest with
         | ',' :: rest2 =>
           (match parseCore fuel 1 rest2 with
            | some (.items xs, rest3) => some (.items (v :: xs), rest3)
            | _ => none)
         | ']' :: rest2 => some (.items [v], rest2)
         | _ => none)
      | _ => none
    else if mode = 2 then
      match skipWs cs with
      | '"' :: cs1 =>
        (match parseStrChars cs1 with
         | some (kcs, rest) =>
           (match skipWs rest with
            | ':' :: rest2 =>
              (match parseCore fuel 0 rest2 with
               | some (.val v, rest3) =>
                 (match skipWs rest3 with
                  | ',' :: rest4 =>
                    (match parseCore fuel 2 rest4 with
                     | some (.fields fs, rest5) =>
                       some (.fields ((String.mk kcs, v) :: fs), rest5)
                     | _ => none)
                  | '\x7d' :: rest4 => some (.fields [(String.mk kcs, v)], rest4)
                  | _ => none)
               | _ => none)
            | _ => none)
         | none => none)
      | _ => none
    else none

/-- Model of JSON.parse: parse one value and require only whitespace
after it; none models the thrown SyntaxError. -/
def jsonParse (s : String) : Option Json :=
  match parseCore (2 * s.length + 2) 0 s.toList with
  | some (.val v, rest) => if (skipWs rest).isEmpty then some v else none
  | _ => none

/-- Shapes of JSON values that occur as record field values. -/
def ScalarShape : Json → Prop
  | .null => True
  | .bool _ => True
  | .num _ e => e = 0
  | .str _ => True
  | .arr _ => False
  | .obj _ => False

/-- The character after a printed number must not extend the number. -/
def NumStop (cs : List Char) : Prop :=
  ∀ c, cs.head? = some c → isDigitCh c = false ∧ c ≠ '.' ∧ c ≠ 'e' ∧ c ≠ 'E'

/-! ## Persistence and cross-reference (src/utils.js) -/

/-- Reading the parsed mapping file as the documented string-to-string
JSON object. -/
def decodeStrMap : Json → Option (List (String × String))
  | .obj fs => fs.mapM (fun kv =>
      match kv.2 with
      | .str v => some (kv.1, v)
      | _ => none)
  | _ => none

/-- JavaScript own-property lookup on a parsed JSON object: with
duplicate keys the later assignment wins.  Inherited prototype
properties are outside the model. -/
def jsLookup (m : List (String × String)) (k : String) : Option String :=
  ((m.reverse).find? (fun kv => kv.1 == k)).map Prod.snd

/-- Loading the email-to-phone mapping in saveEmailData: a failing read
(modelled as none) or a throwing JSON.parse is caught with a warning and
leaves the mapping empty.  The mapping file is modelled as the
documented JSON object of strings. -/
def loadMapping (mappingFile : Option String) : Bool × List (String × String) :=
  match mappingFile with
  | none => (true, [])
  | some s =>
    match jsonParse s with
    | none => (true, [])
    | some j =>
      match decodeStrMap j with
      | some m => (false, m)
      | none => (false, [])

/-- The phone-collection loop of saveEmailData: a record contributes its
mapped phone number when its recipient and the looked-up value are both
truthy (non-null and nonempty). -/
def phoneLoop (m : List (String × String)) : List EmailRecord → List String
  | [] => []
  | e :: rest =>
    match e.«to» with
    | some a =>
      if a = "" then phoneLoop m rest
      else
        (match jsLookup m a with
         | some p => if p = "" then phoneLoop m rest else p :: phoneLoop m rest
         | none => phoneLoop m rest)
    | none => phoneLoop m rest

/-- Result of a successful saveEmailData run: the text written to the
timestamped output file, whether the mapping-load warning was printed,
and the collected phone numbers. -/
structure SaveResult where
  written : String
  warned : Bool
  phoneNumbers : List String
deriving DecidableEq, Repr

/-- Model of saveEmailData in src/utils.js: write the email array
serialized by JSON.stringify(emails, null, 2) to the output file (a
failing write throws and the outer catch re-throws it), load the mapping
under the non-fatal catch, then collect phone numbers for matching
recipients. -/
def saveEmailData (emails : List EmailRecord) (mappingFile : Option String)
    (writeOk : Bool) : Except String SaveResult :=
  if writeOk then
    let lm := loadMapping mappingFile
    .ok ⟨String.mk (printEmailsJson emails), lm.1, phoneLoop lm.2 emails⟩
  else .error "write failed"

/-- Specification-side description of the phone sequence: the mapped
phone number of every record whose nonempty recipient is a key of the
mapping with a nonempty value, in record order, duplicates allowed. -/
def phonesSpec (m : List (String × String)) (emails : List EmailRecord) : List String :=
  emails.filterMap (fun e =>
    e.«to».bind (fun a =>
      if a = "" then none
      else (jsLookup m a).bind (fun p => if p = "" then none else some p)))

/-! ## OAuth token bootstrap (src/auth.js, both variants) -/

/-- How the authenticated client obtained its credentials. -/
inductive AuthOutcome where
  | cached (credentials : Json)
  | fresh (tokens : Json)
deriving Repr

/-- Model of getAuthenticatedGmail: read the cached token file and parse
it with JSON.parse; any failure of the read or of the parse falls into
the catch and runs the new-token flow, whose own failure propagates out
of the catch. -/
def getAuthenticatedGmail (tokenFile : Option String)
    (newToken : Except String Json) : Except String AuthOutcome :=
  match tokenFile with
  | some s =>
    (match jsonParse s with
     | some j => .ok (.cached j)
     | none =>
       match newToken with
       | .ok t => .ok (.fresh t)
       | .error e => .error e)
  | none =>
    match newToken with
    | .ok t => .ok (.fresh t)
    | .error e => .error e

/-- One observable step of the local-callback request handler. -/
inductive SrvEvent where
  | respond (status : Nat)
  | close
  | resolve (tokens : Json)
  | reject (msg : String)
deriving Repr

/-- Model of the local-callback request handler in getNewToken of the
local-server variant: with a code parameter, answer 200, close the
server, then exchange the code and persist the tokens, resolving on
success and rejecting when the exchange or the token write throws;
without a code, answer 400, close, reject; if writing the first
response throws, the surrounding catch answers 500, closes and
rejects. -/
def handlerTrace (code : Option String) (respondOk : Bool)
    (exchange : String → Except String Json) (persistOk : Bool) : List SrvEvent :=
  match code with
  | some c =>
    if respondOk then
      .respond 200 :: .close ::
        (match exchange c with
         | .ok tokens =>
           if persistOk then [.resolve tokens]
           else [.reject "Error retrieving access token"]
         | .error e => [.reject e])
    else [.respond 500, .close, .reject "response write failed"]
  | none =>
    if respondOk then
      [.respond 400, .close, .reject "No authorization code received"]
    else [.respond 500, .close, .reject "response write failed"]

/-- Number of server.close() calls in a handler trace. -/
def closeCount (tr : List SrvEvent) : Nat :=
  (tr.filter (fun ev => match ev with | .close => true | _ => false)).length

/-- Fixture: a get oracle whose responses vary only in internalDate. -/
def gTsW : String → Except String GetResp := fun mid =>
  if mid = "ts-none" then .ok ⟨some [], none⟩
  else if mid = "ts-num" then .ok ⟨some [], some "1710000000000"⟩
  else .ok ⟨some [], some "not a number"⟩

/-- Fixture: a record whose timestamp is the NaN a non-numeric
internalDate produces. -/
def rNanW : EmailRecord := ⟨"n1", none, none, .nan, none⟩

/-- Written text of a saveEmailData result, empty on error. -/
def writtenOf (x : Except String SaveResult) : String :=
  match x with
  | .ok r => r.written
  | .error _ => ""

/-- Fixture: a success record and an error record, both without NaN. -/
def e9W : List EmailRecord :=
  [⟨"m1", some "a@x.com", some "Sun, 10 Mar 2024", .int 1710000000000, none⟩,
    ⟨"m2", none, none, .null, some "network down"⟩]

/-- Fixture: mapping file text with one entry whose value is the empty
string. -/
def mfEmptyPhoneW : Option String := some "\x7b\"a@x.com\": \"\"\x7d"

/-- Fixture: one record addressed to the key of mfEmptyPhoneW. -/
def eC6W : List EmailRecord := [⟨"c1", some "a@x.com", none, .null, none⟩]

/-- Phone numbers of a saveEmailData result, empty on error. -/
def phonesOf (x : Except String SaveResult) : List String :=
  match x with
  | .ok r => r.phoneNumbers
  | .error _ => []

/-- Fixture: the mapping file of the specification example. -/
def mfGoodW : Option String := some "\x7b\"a@x.com\": \"555-0100\"\x7d"

/-- Fixture: records addressed to a@x.com and b@x.com. -/
def e6W : List EmailRecord :=
  [⟨"w1", some "a@x.com", none, .null, none⟩, ⟨"w2", some "b@x.com", none, .null, none⟩]

/-- Fixture: the SaveResult of the specification example. -/
def saveResW : SaveResult :=
  ⟨String.mk (printEmailsJson e6W), false, phoneLoop (loadMapping mfGoodW).2 e6W⟩

/-! ## General lemmas about the email service -/

/-- The record built for a message always carries that message's id. -/
theorem extract_id_eq (get : String → Except String GetResp) (messageId : String) :
    (extractEmailData get messageId).id = messageId := by
  unfold extractEmailData
  cases hg : get messageId with
  | error m => rfl
  | ok resp =>
    obtain ⟨pl, idate⟩ := resp
    cases pl <;> rfl

/-- When the list call yields some refs, fetchCVSEmails extracts exactly
those refs in order. -/
theorem fetch_eq_map_of_list_some (g : GmailClient) (now : CivilDate)
    (refs : List MessageRef)
    (h : g.listResult (cvsQuery now) listMaxResults = .ok (some refs)) :
    fetchCVSEmails g now = .ok (refs.map (fun m => extractEmailData g.getResult m.id)) := by
  unfold fetchCVSEmails
  rw [h]
  by_cases hr : refs.length = 0
  · have hnil : refs = [] := List.length_eq_zero.mp hr
    subst hnil
    simp
  · simp [hr]

/-- Pointwise: the i-th extracted record carries the id of the i-th ref. -/
theorem map_extract_get_id (get : String → Except String GetResp)
    (refs : List MessageRef) (i : Nat)
    (h1 : i < (refs.map (fun m => extractEmailData get m.id)).length)
    (h2 : i < refs.length) :
    ((refs.map (fun m => extractEmailData get m.id)).get ⟨i, h1⟩).id =
      (refs.get ⟨i, h2⟩).id := by
  simp [List.get_eq_getElem, List.getElem_map, extract_id_eq]

/-! ## Calendar lemmas -/

/-- Every Gregorian month has at least 28 days. -/
theorem daysInMonth_ge (y m : Nat) : 28 ≤ daysInMonth y m := by
  unfold daysInMonth
  split_ifs <;> omega

/-- String concatenation is associative. -/
theorem strAppend_assoc (a b c : String) : a ++ b ++ c = a ++ (b ++ c) := by
  apply String.ext
  simp [String.data_append]

/-- Stepping back k days inside a month only decrements the day field. -/
theorem prev_iterate_within (y m : Nat) (k : Nat) :
    ∀ day, k < day →
      prevCalendarDay^[k] ⟨y, m, day⟩ = ⟨y, m, day - k⟩ := by
  induction k with
  | zero => intro day _; simp
  | succ n ih =>
    intro day hk
    rw [Function.iterate_succ_apply]
    have h2 : 2 ≤ day := by omega
    have hstep : prevCalendarDay ⟨y, m, day⟩ = ⟨y, m, day - 1⟩ := by
      unfold prevCalendarDay
      rw [if_pos h2]
    rw [hstep, ih (day - 1) (by omega)]
    congr 1
    omega

/-- Stepping back one day from the first of January lands on the last
day of December of the previous year. -/
theorem prev_jan_first (y : Nat) :
    prevCalendarDay ⟨y, 1, 1⟩ = ⟨y - 1, 12, 31⟩ := by
  unfold prevCalendarDay
  dsimp only
  rw [if_neg (by omega : ¬ (2 : Nat) ≤ 1), if_pos rfl]

/-- Stepping back one day from the first of a month other than January
lands on the last day of the previous month. -/
theorem prev_first_of_month (y m : Nat) (hm : m ≠ 1) :
    prevCalendarDay ⟨y, m, 1⟩ = ⟨y, m - 1, daysInMonth y (m - 1)⟩ := by
  unfold prevCalendarDay
  dsimp only
  rw [if_neg (by omega : ¬ (2 : Nat) ≤ 1), if_neg hm]

/-- Refinement: the setDate-based computation of the source equals going
back six local calendar days, on every valid date. -/
theorem setDateMinus6_eq_prev6 (d : CivilDate) (hv : d.Valid) :
    setDateMinus6 d = prevCalendarDay^[6] d := by
  obtain ⟨y, m, day⟩ := d
  have hy : 1 ≤ y := hv.1
  have hm1 : 1 ≤ m := hv.2.1
  have hm2 : m ≤ 12 := hv.2.2.1
  have hd1 : 1 ≤ day := hv.2.2.2.1
  have hd2 : day ≤ daysInMonth y m := hv.2.2.2.2
  clear hv
  by_cases h7 : 7 ≤ day
  · rw [prev_iterate_within y m 6 day (by omega)]
    unfold setDateMinus6
    dsimp only
    rw [if_pos h7]
  · have hiter : prevCalendarDay^[6 - day]
        (prevCalendarDay (prevCalendarDay^[day - 1] (⟨y, m, day⟩ : CivilDate))) =
        prevCalendarDay^[6] ⟨y, m, day⟩ := by
      have hstep : prevCalendarDay (prevCalendarDay^[day - 1] (⟨y, m, day⟩ : CivilDate)) =
          prevCalendarDay^[(day - 1) + 1] ⟨y, m, day⟩ :=
        (Function.iterate_succ_apply' prevCalendarDay (day - 1) ⟨y, m, day⟩).symm
      rw [hstep, ← Function.iterate_add_apply]
      congr 1
      omega
    rw [← hiter, prev_iterate_within y m (day - 1) day (by omega)]
    have hday1 : day - (day - 1) = 1 := by omega
    rw [hday1]
    by_cases hm : m = 1
    · subst hm
      rw [prev_jan_first y]
      have h31 : daysInMonth (y - 1) 12 = 31 := by
        unfold daysInMonth
        norm_num
      rw [prev_iterate_within (y - 1) 12 (6 - day) 31 (by omega)]
      unfold setDateMinus6
      dsimp only
      rw [if_neg h7, if_pos rfl, h31]
      simp only [CivilDate.mk.injEq, true_and]
      omega
    · rw [prev_first_of_month y m hm]
      have hL := daysInMonth_ge y (m - 1)
      rw [prev_iterate_within y (m - 1) (6 - day) (daysInMonth y (m - 1)) (by omega)]
      unfold setDateMinus6
      dsimp only
      rw [if_neg h7, if_neg hm]
      simp only [CivilDate.mk.injEq, true_and]
      omega

/-! ## Lemmas for the JSON round trip -/

/-- A non-whitespace head stops whitespace skipping. -/
theorem skipWs_not_ws (c : Char) (cs : List Char) (h : isJsonWs c = false) :
    skipWs (c :: cs) = c :: cs := by
  simp [skipWs, List.dropWhile_cons, h]

/-- Leading whitespace is skipped. -/
theorem skipWs_ws_append (ws cs : List Char) (h : ∀ c ∈ ws, isJsonWs c = true) :
    skipWs (ws ++ cs) = skipWs cs := by
  induction ws with
  | nil => rfl
  | cons c t ih =>
    have hc : isJsonWs c = true := h c (List.mem_cons_self c t)
    rw [List.cons_append]
    show List.dropWhile isJsonWs (c :: (t ++ cs)) = skipWs cs
    rw [List.dropWhile_cons, if_pos (by simp [hc])]
    exact ih (fun d hd => h d (List.mem_cons_of_mem c hd))

/-- An expected literal is consumed from the front. -/
theorem expectChars_append (lit rest : List Char) :
    expectChars lit (lit ++ rest) = some rest := by
  induction lit with
  | nil => rfl
  | cons c t ih => simp [expectChars, ih]

/-- The hexadecimal digit printer and reader are inverse. -/
theorem hexDigit?_hexDigitChar (n : Nat) (h : n < 16) :
    hexDigit? (hexDigitChar n) = some n := by
  interval_cases n <;> decide

/-- The decimal digit printer and reader are inverse. -/
theorem decDigit?_digitChar (k : Nat) (h : k < 10) :
    decDigit? (digitChar k) = some k := by
  interval_cases k <;> decide

/-- Unescaping inverts escaping, up to the closing quote. -/
theorem parseStrChars_roundtrip (cs rest : List Char) :
    parseStrChars (cs.flatMap escapeChar ++ '"' :: rest) = some (cs, rest) := by
  induction cs with
  | nil =>
    rw [List.flatMap_nil, List.nil_append, parseStrChars.eq_def]
    simp
  | cons c t ih =>
    rw [List.flatMap_cons, List.append_assoc]
    by_cases h1 : c = '"'
    · subst h1
      show parseStrChars ('\\' :: '"' :: (t.flatMap escapeChar ++ '"' :: rest)) =
        some ('"' :: t, rest)
      rw [parseStrChars.eq_def]
      simp [ih]
    · by_cases h2 : c = '\\'
      · subst h2
        show parseStrChars ('\\' :: '\\' :: (t.flatMap escapeChar ++ '"' :: rest)) =
          some ('\\' :: t, rest)
        rw [parseStrChars.eq_def]
        simp [ih]
      · by_cases h3 : c = '\x08'
        · subst h3
          show parseStrChars ('\\' :: 'b' :: (t.flatMap escapeChar ++ '"' :: rest)) =
            some ('\x08' :: t, rest)
          rw [parseStrChars.eq_def]
          simp [ih]
        · by_cases h4 : c = '\t'
          · subst h4
            show parseStrChars ('\\' :: 't' :: (t.flatMap escapeChar ++ '"' :: rest)) =
              some ('\t' :: t, rest)
            rw [parseStrChars.eq_def]
            simp [ih]
          · by_cases h5 : c = '\n'
            · subst h5
              show parseStrChars
                  ('\\' :: 'n' :: (t.flatMap escapeChar ++ '"' :: rest)) =
                some ('\n' :: t, rest)
              rw [parseStrChars.eq_def]
              simp [ih]
            · by_cases h6 : c = '\x0c'
              · subst h6
                show parseStrChars
                    ('\\' :: 'f' :: (t.flatMap escapeChar ++ '"' :: rest)) =
                  some ('\x0c' :: t, rest)
                rw [parseStrChars.eq_def]
                simp [ih]
              · by_cases h7 : c = '\r'
                · subst h7
                  show parseStrChars
                      ('\\' :: 'r' :: (t.flatMap escapeChar ++ '"' :: rest)) =
                    some ('\r' :: t, rest)
                  rw [parseStrChars.eq_def]
                  simp [ih]
                · by_cases h8 : c.toNat < 32
                  · have hdiv : c.toNat / 16 < 16 := by omega
                    have hmod : c.toNat % 16 < 16 := Nat.mod_lt _ (by omega)
                    have h0 : hexDigit? '0' = some 0 := by decide
                    have hlt : c.toNat < 55296 := by omega
                    have hdm : c.toNat / 16 * 16 + c.toNat % 16 = c.toNat := by omega
                    have hcode :
                        ((0 * 16 + 0) * 16 + c.toNat / 16) * 16 + c.toNat % 16 =
                          c.toNat := by
                      omega
                    simp only [escapeChar, h1, h2, h3, h4, h5, h6, h7, h8, if_false,
                      if_true, ite_true, ite_false, List.cons_append, List.nil_append]
                    rw [parseStrChars.eq_def]
                    simp [hexDigit?_hexDigitChar _ hdiv, hexDigit?_hexDigitChar _ hmod,
                      h0, hcode, ih, Char.ofNat_toNat, hlt]
                    constructor
                    · omega
                    · rw [hdm]
                      exact Char.ofNat_toNat c
                  · simp only [escapeChar, h1, h2, h3, h4, h5, h6, h7, h8, if_false,
                      ite_false, List.cons_append, List.nil_append]
                    rw [parseStrChars.eq_def]
                    simp [h1, h2, h8, ih]

/-- Folding digit characters over an accumulator shifts it by a power of
ten. -/
theorem valDigits_shift (B : List Char) :
    ∀ a : Nat,
      B.foldl (fun x c => x * 10 + (decDigit? c).getD 0) a =
        a * 10 ^ B.length + valDigits B := by
  induction B with
  | nil => intro a; simp [valDigits]
  | cons c t ih =>
    intro a
    rw [List.foldl_cons, ih]
    have hv : valDigits (c :: t) =
        ((decDigit? c).getD 0) * 10 ^ t.length + valDigits t := by
      have h2 : valDigits (c :: t) =
          List.foldl (fun x c => x * 10 + (decDigit? c).getD 0)
            (0 * 10 + (decDigit? c).getD 0) t := rfl
      rw [h2, ih]
      ring
    rw [List.length_cons, hv]
    ring

/-- Appending one digit multiplies the value by ten and adds it. -/
theorem valDigits_snoc (A : List Char) (d : Char) :
    valDigits (A ++ [d]) = valDigits A * 10 + (decDigit? d).getD 0 := by
  unfold valDigits
  rw [List.foldl_append]
  rfl

/-- The decimal printer produces the digits of its input: their value is
the input, they are all digit characters, and there is at least one. -/
theorem natChars_spec : ∀ fuel n, n < fuel →
    valDigits (natChars fuel n) = n ∧
    (∀ c ∈ natChars fuel n, isDigitCh c = true) ∧
    natChars fuel n ≠ [] := by
  intro fuel
  induction fuel with
  | zero => intro n h; omega
  | succ f ih =>
    intro n h
    by_cases h10 : n < 10
    · refine ⟨?_, ?_, ?_⟩
      · simp only [natChars, h10, if_pos]
        unfold valDigits
        simp [decDigit?_digitChar n h10]
      · intro c hc
        simp only [natChars, h10, if_pos, List.mem_singleton] at hc
        subst hc
        simp [isDigitCh, decDigit?_digitChar n h10]
      · simp [natChars, h10]
    · have hdiv : n / 10 < f := by
        have h2 : n / 10 < n := Nat.div_lt_self (by omega) (by omega)
        omega
      obtain ⟨ihv, ihall, ihne⟩ := ih (n / 10) hdiv
      have heq : natChars (f + 1) n = natChars f (n / 10) ++ [digitChar (n % 10)] := by
        simp [natChars, h10]
      have hmod : n % 10 < 10 := Nat.mod_lt _ (by omega)
      refine ⟨?_, ?_, ?_⟩
      · rw [heq, valDigits_snoc, ihv, decDigit?_digitChar _ hmod]
        simp only [Option.getD_some]
        omega
      · intro c hc
        rw [heq] at hc
        rcases List.mem_append.mp hc with h1 | h1
        · exact ihall c h1
        · rw [List.mem_singleton.mp h1]
          simp [isDigitCh, decDigit?_digitChar _ hmod]
      · rw [heq]
        simp

/-- The leading printed digit of a positive number is not zero. -/
theorem natChars_head_ne_zero : ∀ fuel n, n < fuel → 1 ≤ n →
    ∀ c, (natChars fuel n).head? = some c → c ≠ '0' := by
  intro fuel
  induction fuel with
  | zero => intro n h; omega
  | succ f ih =>
    intro n h h1 c hc
    by_cases h10 : n < 10
    · simp only [natChars, h10, if_pos, List.head?_cons, Option.some.injEq] at hc
      subst hc
      interval_cases n <;> decide
    · have hdiv : n / 10 < f := by
        have h2 : n / 10 < n := Nat.div_lt_self (by omega) (by omega)
        omega
      obtain ⟨h3, h4, ihne⟩ := natChars_spec f (n / 10) hdiv
      cases hA : natChars f (n / 10) with
      | nil => exact absurd hA ihne
      | cons a A2 =>
        have heq : natChars (f + 1) n = natChars f (n / 10) ++ [digitChar (n % 10)] := by
          simp [natChars, h10]
        rw [heq, hA] at hc
        simp only [List.cons_append, List.head?_cons, Option.some.injEq] at hc
        rw [← hc]
        exact ih (n / 10) hdiv (by omega) a (by rw [hA]; rfl)

/-- A run of digits followed by a non-digit splits at the boundary. -/
theorem span_digits_append (ds rest : List Char)
    (hds : ∀ c ∈ ds, isDigitCh c = true)
    (hrest : ∀ c, rest.head? = some c → isDigitCh c = false) :
    (ds ++ rest).takeWhile isDigitCh = ds ∧
    (ds ++ rest).dropWhile isDigitCh = rest := by
  induction ds with
  | nil =>
    simp only [List.nil_append]
    cases rest with
    | nil => simp
    | cons r t =>
      have hr := hrest r rfl
      simp [List.takeWhile_cons, List.dropWhile_cons, hr]
  | cons d t ih =>
    have hd : isDigitCh d = true := hds d (List.mem_cons_self d t)
    obtain ⟨ht, hdr⟩ := ih (fun c hc => hds c (List.mem_cons_of_mem d hc))
    simp [List.takeWhile_cons, List.dropWhile_cons, hd, ht, hdr]

/-- parseFrac without a dot leaves the input unchanged. -/
theorem parseFrac_no_dot (ip : Nat) (cs : List Char)
    (h : ∀ c, cs.head? = some c → c ≠ '.') :
    parseFrac ip cs = some (ip, 0, cs) := by
  cases cs with
  | nil => rfl
  | cons c t =>
    have hc := h c rfl
    simp [parseFrac, hc]

/-- parseExp without an exponent marker leaves the input unchanged. -/
theorem parseExp_no_e (cs : List Char)
    (h : ∀ c, cs.head? = some c → c ≠ 'e' ∧ c ≠ 'E') :
    parseExp cs = some (0, cs) := by
  cases cs with
  | nil => rfl
  | cons c t =>
    obtain ⟨h1, h2⟩ := h c rfl
    simp [parseExp, h1, h2]

/-- A recognised decimal digit character is the printed form of its
value. -/
theorem decDigit?_some (c : Char) (d : Nat) (h : decDigit? c = some d) :
    d < 10 ∧ c = digitChar d := by
  unfold decDigit? at h
  split_ifs at h with hb
  · injection h with h2
    constructor
    · omega
    · have h3 : 48 + (c.toNat - 48) = c.toNat := by omega
      rw [← h2]
      unfold digitChar
      rw [h3, Char.ofNat_toNat]

/-- Character classifications of a printed decimal digit. -/
theorem digitChar_class (d : Nat) (h : d < 10) :
    isDigitCh (digitChar d) = true ∧ isJsonWs (digitChar d) = false ∧
    digitChar d ≠ '-' ∧ digitChar d ≠ '.' ∧ digitChar d ≠ 'n' ∧
    digitChar d ≠ 't' ∧ digitChar d ≠ 'f' ∧ digitChar d ≠ '"' ∧
    digitChar d ≠ '[' ∧ digitChar d ≠ '\x7b' := by
  interval_cases d <;> decide

/-- parseNumBody reads back exactly a printed natural number. -/
theorem parseNumBody_nat (neg : Bool) (n : Nat) (rest : List Char)
    (h : NumStop rest) :
    parseNumBody neg (natToChars n ++ rest) =
      some (.num (if neg then -(n : Int) else (n : Int)) 0, rest) := by
  have hdot : ∀ c, rest.head? = some c → c ≠ '.' := fun c hc => (h c hc).2.1
  have hee : ∀ c, rest.head? = some c → c ≠ 'e' ∧ c ≠ 'E' :=
    fun c hc => ⟨(h c hc).2.2.1, (h c hc).2.2.2⟩
  have hnd : ∀ c, rest.head? = some c → isDigitCh c = false := fun c hc => (h c hc).1
  by_cases h0 : n = 0
  · subst h0
    have he : natToChars 0 ++ rest = '0' :: rest := rfl
    rw [he]
    unfold parseNumBody
    have hd0 : decDigit? '0' = some 0 := by decide
    simp [hd0, parseFrac_no_dot _ _ hdot, parseExp_no_e _ hee]
  · obtain ⟨hv, hall, hne⟩ := natChars_spec (n + 1) n (by omega)
    cases hA : natChars (n + 1) n with
    | nil => exact absurd hA hne
    | cons a A2 =>
      have hnt : natToChars n = a :: A2 := by rw [natToChars, hA]
      have haDig : isDigitCh a = true := by
        apply hall
        rw [hA]
        exact List.mem_cons_self a A2
      obtain ⟨da, hda⟩ : ∃ da, decDigit? a = some da := by
        unfold isDigitCh at haDig
        exact Option.isSome_iff_exists.mp haDig
      obtain ⟨hda10, hdac⟩ := decDigit?_some a da hda
      have ha0 : a ≠ '0' :=
        natChars_head_ne_zero (n + 1) n (by omega) (by omega) a (by rw [hA]; rfl)
      have hAall : ∀ c ∈ A2, isDigitCh c = true := by
        intro c hc
        apply hall
        rw [hA]
        exact List.mem_cons_of_mem a hc
      obtain ⟨htake, hdrop⟩ := span_digits_append A2 rest hAall hnd
      have hval : valDigits (a :: A2) = n := by rw [← hA]; exact hv
      rw [hnt, List.cons_append]
      unfold parseNumBody
      simp only [hda, if_neg ha0, htake, hdrop, hval,
        parseFrac_no_dot _ _ hdot, parseExp_no_e _ hee]
      simp

/-- parseNumber reads back exactly a printed integer. -/
theorem parseNumber_int (i : Int) (rest : List Char) (h : NumStop rest) :
    parseNumber (intToChars i ++ rest) = some (.num i 0, rest) := by
  by_cases hneg : i < 0
  · have he : intToChars i = '-' :: natToChars i.natAbs := by
      unfold intToChars
      rw [if_pos hneg]
    rw [he, List.cons_append]
    show parseNumBody true (natToChars i.natAbs ++ rest) = some (.num i 0, rest)
    rw [parseNumBody_nat true i.natAbs rest h]
    have h2 : -(i.natAbs : Int) = i := by omega
    show some (Json.num (-(i.natAbs : Int)) 0, rest) = some (Json.num i 0, rest)
    rw [h2]
  · have he : intToChars i = natToChars i.natAbs := by
      unfold intToChars
      rw [if_neg hneg]
    rw [he]
    obtain ⟨hv, hall, hne⟩ := natChars_spec (i.natAbs + 1) i.natAbs (by omega)
    cases hA : natChars (i.natAbs + 1) i.natAbs with
    | nil => exact absurd hA hne
    | cons a A2 =>
      have hnt : natToChars i.natAbs = a :: A2 := by rw [natToChars, hA]
      have haDig : isDigitCh a = true := by
        apply hall
        rw [hA]
        exact List.mem_cons_self a A2
      obtain ⟨da, hda⟩ : ∃ da, decDigit? a = some da :=
        Option.isSome_iff_exists.mp haDig
      obtain ⟨hda10, hdac⟩ := decDigit?_some a da hda
      have hnm : a ≠ '-' := by
        rw [hdac]
        exact (digitChar_class da hda10).2.2.1
      rw [hnt, List.cons_append]
      unfold parseNumber
      dsimp only
      rw [if_neg hnm, ← List.cons_append, ← hnt,
        parseNumBody_nat false i.natAbs rest h]
      have h2 : (i.natAbs : Int) = i := by omega
      simp [h2]

/-- The quoted form of a string in context. -/
theorem quoteChars_append (s : String) (rest : List Char) :
    quoteChars s ++ rest = '"' :: (s.toList.flatMap escapeChar ++ '"' :: rest) := by
  unfold quoteChars
  simp

/-- The first character of a printed integer is a minus sign or a digit,
and in either case starts no other JSON token. -/
theorem intToChars_head (i : Int) :
    ∃ c t2, intToChars i = c :: t2 ∧ isJsonWs c = false ∧ c ≠ 'n' ∧ c ≠ 't' ∧
      c ≠ 'f' ∧ c ≠ '"' ∧ c ≠ '[' ∧ c ≠ '\x7b' := by
  by_cases hneg : i < 0
  · refine ⟨'-', natToChars i.natAbs, ?_, by decide, by decide, by decide, by decide,
      by decide, by decide, by decide⟩
    unfold intToChars
    rw [if_pos hneg]
  · obtain ⟨h3, hall, hne⟩ := natChars_spec (i.natAbs + 1) i.natAbs (by omega)
    cases hA : natChars (i.natAbs + 1) i.natAbs with
    | nil => exact absurd hA hne
    | cons a A2 =>
      have haDig : isDigitCh a = true := by
        apply hall
        rw [hA]
        exact List.mem_cons_self a A2
      obtain ⟨da, hda⟩ : ∃ da, decDigit? a = some da :=
        Option.isSome_iff_exists.mp haDig
      obtain ⟨hda10, hdac⟩ := decDigit?_some a da hda
      obtain ⟨q1, q2, q3, q4, q5, q6, q7, q8, q9, q10⟩ := digitChar_class da hda10
      refine ⟨a, A2, ?_, ?_, ?_, ?_, ?_, ?_, ?_, ?_⟩
      · unfold intToChars
        rw [if_neg hneg, natToChars, hA]
      · rw [hdac]; exact q2
      · rw [hdac]; exact q5
      · rw [hdac]; exact q6
      · rw [hdac]; exact q7
      · rw [hdac]; exact q8
      · rw [hdac]; exact q9
      · rw [hdac]; exact q10

/-- One value parse of a printed scalar with leading whitespace. -/
theorem parseCore_scalar (fuel : Nat) (v : Json) (hv : ScalarShape v)
    (pre rest : List Char) (hpre : ∀ c ∈ pre, isJsonWs c = true)
    (hrest : NumStop rest) :
    parseCore (fuel + 1) 0 (pre ++ (scalarChars v ++ rest)) =
      some (.val v, rest) := by
  unfold parseCore
  rw [skipWs_ws_append pre _ hpre]
  cases v with
  | null =>
    rw [show scalarChars Json.null ++ rest = 'n' :: (['u', 'l', 'l'] ++ rest) from rfl]
    rw [skipWs_not_ws 'n' _ (by decide)]
    simp [expectChars]
  | bool b =>
    cases b with
    | true =>
      rw [show scalarChars (Json.bool true) ++ rest =
        't' :: (['r', 'u', 'e'] ++ rest) from rfl]
      rw [skipWs_not_ws 't' _ (by decide)]
      simp [expectChars]
    | false =>
      rw [show scalarChars (Json.bool false) ++ rest =
        'f' :: (['a', 'l', 's', 'e'] ++ rest) from rfl]
      rw [skipWs_not_ws 'f' _ (by decide)]
      simp [expectChars]
  | str s =>
    rw [show scalarChars (Json.str s) ++ rest = quoteChars s ++ rest from rfl]
    rw [quoteChars_append, skipWs_not_ws '"' _ (by decide)]
    simp [parseStrChars_roundtrip]
  | num m e =>
    have he : e = 0 := hv
    subst he
    rw [show scalarChars (Json.num m 0) ++ rest = intToChars m ++ rest from rfl]
    obtain ⟨c, t2, hct, w1, w2, w3, w4, w5, w6, w7⟩ := intToChars_head m
    rw [hct, List.cons_append, skipWs_not_ws c _ w1]
    have hpn : parseNumber (c :: (t2 ++ rest)) = some (.num m 0, rest) := by
      rw [← List.cons_append, ← hct]
      exact parseNumber_int m rest hrest
    simp [w2, w3, w4, w5, w6, w7, hpn]
  | arr xs => exact hv.elim
  | obj fs => exact hv.elim

/-- One parser step: an object value whose brace is followed by a
non-empty field list. -/
theorem parseCore_obj_value (f : Nat) (cs cs1 w r : List Char)
    (fs : List (String × Json)) (h1 : skipWs cs = '\x7b' :: cs1)
    (h2 : skipWs cs1 = '"' :: w)
    (h3 : parseCore f 2 cs1 = some (.fields fs, r)) :
    parseCore (f + 1) 0 cs = some (.val (.obj fs), r) := by
  unfold parseCore
  rw [h1]
  dsimp only
  simp [h2, h3]

/-- One parser step: an array value whose bracket is followed by a
non-empty item list. -/
theorem parseCore_arr_value (f : Nat) (cs cs1 w r : List Char)
    (xs : List Json) (h1 : skipWs cs = '[' :: cs1)
    (h2 : skipWs cs1 = '\x7b' :: w)
    (h3 : parseCore f 1 cs1 = some (.items xs, r)) :
    parseCore (f + 1) 0 cs = some (.val (.arr xs), r) := by
  unfold parseCore
  rw [h1]
  dsimp only
  simp [h2, h3]

/-- One parser step: an array item followed by a comma. -/
theorem parseCore_items_cons (f : Nat) (cs r1 r2 r3 : List Char) (v : Json)
    (xs : List Json) (h1 : parseCore f 0 cs = some (.val v, r1))
    (h2 : skipWs r1 = ',' :: r2)
    (h3 : parseCore f 1 r2 = some (.items xs, r3)) :
    parseCore (f + 1) 1 cs = some (.items (v :: xs), r3) := by
  unfold parseCore
  rw [h1]
  dsimp only
  simp [h2, h3]

/-- One parser step: the final array item, followed by the closing
bracket. -/
theorem parseCore_items_last (f : Nat) (cs r1 r2 : List Char) (v : Json)
    (h1 : parseCore f 0 cs = some (.val v, r1))
    (h2 : skipWs r1 = ']' :: r2) :
    parseCore (f + 1) 1 cs = some (.items [v], r2) := by
  unfold parseCore
  rw [h1]
  dsimp only
  simp [h2]

/-- One parser step: an object field followed by a comma. -/
theorem parseCore_fields_cons (f : Nat) (cs cs1 kcs r1 r2 r3 r4 r5 : List Char)
    (v : Json) (fs : List (String × Json))
    (h1 : skipWs cs = '"' :: cs1) (h2 : parseStrChars cs1 = some (kcs, r1))
    (h3 : skipWs r1 = ':' :: r2) (h4 : parseCore f 0 r2 = some (.val v, r3))
    (h5 : skipWs r3 = ',' :: r4)
    (h6 : parseCore f 2 r4 = some (.fields fs, r5)) :
    parseCore (f + 1) 2 cs = some (.fields ((String.mk kcs, v) :: fs), r5) := by
  unfold parseCore
  rw [h1]
  simp [h2, h3, h4, h5, h6]

/-- One parser step: the final object field, followed by the closing
brace. -/
theorem parseCore_fields_last (f : Nat) (cs cs1 kcs r1 r2 r3 r4 : List Char)
    (v : Json) (h1 : skipWs cs = '"' :: cs1)
    (h2 : parseStrChars cs1 = some (kcs, r1)) (h3 : skipWs r1 = ':' :: r2)
    (h4 : parseCore f 0 r2 = some (.val v, r3))
    (h5 : skipWs r3 = '\x7d' :: r4) :
    parseCore (f + 1) 2 cs = some (.fields [(String.mk kcs, v)], r4) := by
  unfold parseCore
  rw [h1]
  simp [h2, h3, h4, h5]

/-- Packaging NumStop for a cons list. -/
theorem numStop_cons (c : Char) (cs : List Char)
    (h : isDigitCh c = false ∧ c ≠ '.' ∧ c ≠ 'e' ∧ c ≠ 'E') :
    NumStop (c :: cs) := by
  intro d hd
  simp only [List.head?_cons, Option.some.injEq] at hd
  rw [← hd]
  exact h

/-- Skipping the whitespace before a field line exposes the quoted key. -/
theorem skipWs_fieldline (kv : String × Json) (tail : List Char) :
    skipWs ('\n' :: ' ' :: ' ' :: ' ' :: ' ' :: (fieldChars kv ++ tail)) =
      '"' :: (kv.1.toList.flatMap escapeChar ++
        '"' :: (':' :: ' ' :: (scalarChars kv.2 ++ tail))) := by
  have h1 : '\n' :: ' ' :: ' ' :: ' ' :: ' ' :: (fieldChars kv ++ tail) =
      ['\n', ' ', ' ', ' ', ' '] ++ (fieldChars kv ++ tail) := rfl
  rw [h1, skipWs_ws_append _ _ (by decide)]
  have h2 : fieldChars kv ++ tail =
      quoteChars kv.1 ++ (':' :: ' ' :: (scalarChars kv.2 ++ tail)) := by
    unfold fieldChars
    simp
  rw [h2, quoteChars_append]
  exact skipWs_not_ws '"' _ (by decide)

/-- A record always has fields. -/
theorem recordFields_ne_nil (r : EmailRecord) : recordFields r ≠ [] := by
  unfold recordFields
  cases r.error <;> simp

/-- A record has at most seven fields. -/
theorem recordFields_length (r : EmailRecord) : (recordFields r).length ≤ 7 := by
  unfold recordFields
  cases r.error <;> simp

/-- The value of a nullable string field is scalar. -/
theorem scalarShape_optStr (x : Option String) : ScalarShape (optStrJson x) := by
  cases x <;> trivial

/-- The value of a timestamp field is scalar. -/
theorem scalarShape_ts (t : TsVal) : ScalarShape (tsJson t) := by
  cases t with
  | null => trivial
  | nan => trivial
  | int n => rfl

/-- All field values of a record are scalars. -/
theorem recordFields_scalar (r : EmailRecord) :
    ∀ kv ∈ recordFields r, ScalarShape kv.2 := by
  intro kv hkv
  unfold recordFields at hkv
  cases herr : r.error with
  | none =>
    rw [herr] at hkv
    simp only [List.mem_cons, List.mem_singleton, List.not_mem_nil, or_false] at hkv
    rcases hkv with rfl | rfl | rfl | rfl
    · trivial
    · exact scalarShape_optStr _
    · exact scalarShape_optStr _
    · exact scalarShape_ts _
  | some e =>
    rw [herr] at hkv
    simp only [List.mem_cons, List.mem_singleton, List.not_mem_nil, or_false] at hkv
    rcases hkv with rfl | rfl | rfl | rfl | rfl | rfl | rfl
    · trivial
    · trivial
    · trivial
    · trivial
    · exact scalarShape_optStr _
    · exact scalarShape_optStr _
    · exact scalarShape_ts _

/-- Parsing the printed field lines of a non-empty field list. -/
theorem parseCore_fields_all (fs : List (String × Json)) :
    ∀ (f : Nat) (rest : List Char), fs ≠ [] →
      (∀ kv ∈ fs, ScalarShape kv.2) → fs.length + 1 ≤ f →
      parseCore f 2
        ('\n' :: (joinSep [',', '\n']
            (fs.map (fun x => [' ', ' ', ' ', ' '] ++ fieldChars x)) ++
          ('\n' :: ' ' :: ' ' :: '\x7d' :: rest))) =
        some (.fields fs, rest) := by
  induction fs with
  | nil => intro f rest hne; exact absurd rfl hne
  | cons kv t ih =>
    intro f rest hne hsc hf
    obtain ⟨g, rfl⟩ : ∃ g, f = g + 1 := ⟨f - 1, by omega⟩
    have hkv : ScalarShape kv.2 := hsc kv (List.mem_cons_self kv t)
    cases t with
    | nil =>
      have hstep : ('\n' :: (joinSep [',', '\n']
          ([kv].map (fun x => [' ', ' ', ' ', ' '] ++ fieldChars x)) ++
            ('\n' :: ' ' :: ' ' :: '\x7d' :: rest))) =
          '\n' :: ' ' :: ' ' :: ' ' :: ' ' ::
            (fieldChars kv ++ ('\n' :: ' ' :: ' ' :: '\x7d' :: rest)) := by
        show '\n' :: (([' ', ' ', ' ', ' '] ++ fieldChars kv) ++
          ('\n' :: ' ' :: ' ' :: '\x7d' :: rest)) = _
        simp
      rw [hstep]
      have hE : NumStop ('\n' :: ' ' :: ' ' :: '\x7d' :: rest) :=
        numStop_cons _ _ (by decide)
      obtain ⟨g2, rfl⟩ : ∃ g2, g = g2 + 1 := ⟨g - 1, by simp at hf; omega⟩
      have h4 : parseCore (g2 + 1) 0
          (' ' :: (scalarChars kv.2 ++ ('\n' :: ' ' :: ' ' :: '\x7d' :: rest))) =
          some (.val kv.2, '\n' :: ' ' :: ' ' :: '\x7d' :: rest) := by
        have := parseCore_scalar g2 kv.2 hkv [' ']
          ('\n' :: ' ' :: ' ' :: '\x7d' :: rest) (by decide) hE
        simpa using this
      have h5 : skipWs ('\n' :: ' ' :: ' ' :: '\x7d' :: rest) = '\x7d' :: rest := by
        rw [show ('\n' :: ' ' :: ' ' :: '\x7d' :: rest) =
          ['\n', ' ', ' '] ++ ('\x7d' :: rest) from rfl]
        rw [skipWs_ws_append _ _ (by decide)]
        exact skipWs_not_ws _ _ (by decide)
      exact parseCore_fields_last (g2 + 1) _ _ _ _ _ _ _ kv.2
        (skipWs_fieldline kv _) (parseStrChars_roundtrip _ _)
        (skipWs_not_ws ':' _ (by decide)) h4 h5
    | cons kv2 t2 =>
      have hstep : ('\n' :: (joinSep [',', '\n']
          ((kv :: kv2 :: t2).map (fun x => [' ', ' ', ' ', ' '] ++ fieldChars x)) ++
            ('\n' :: ' ' :: ' ' :: '\x7d' :: rest))) =
          '\n' :: ' ' :: ' ' :: ' ' :: ' ' ::
            (fieldChars kv ++ (',' :: '\n' :: (joinSep [',', '\n']
              ((kv2 :: t2).map (fun x => [' ', ' ', ' ', ' '] ++ fieldChars x)) ++
                ('\n' :: ' ' :: ' ' :: '\x7d' :: rest)))) := by
        show '\n' :: (((([' ', ' ', ' ', ' '] ++ fieldChars kv) ++ [',', '\n']) ++
          joinSep [',', '\n']
            ((kv2 :: t2).map (fun x => [' ', ' ', ' ', ' '] ++ fieldChars x))) ++
          ('\n' :: ' ' :: ' ' :: '\x7d' :: rest)) = _
        simp
      rw [hstep]
      have hT : NumStop (',' :: '\n' :: (joinSep [',', '\n']
          ((kv2 :: t2).map (fun x => [' ', ' ', ' ', ' '] ++ fieldChars x)) ++
            ('\n' :: ' ' :: ' ' :: '\x7d' :: rest))) :=
        numStop_cons _ _ (by decide)
      obtain ⟨g2, rfl⟩ : ∃ g2, g = g2 + 1 := ⟨g - 1, by simp at hf; omega⟩
      have h4 : parseCore (g2 + 1) 0
          (' ' :: (scalarChars kv.2 ++ (',' :: '\n' :: (joinSep [',', '\n']
            ((kv2 :: t2).map (fun x => [' ', ' ', ' ', ' '] ++ fieldChars x)) ++
              ('\n' :: ' ' :: ' ' :: '\x7d' :: rest))))) =
          some (.val kv.2, ',' :: '\n' :: (joinSep [',', '\n']
            ((kv2 :: t2).map (fun x => [' ', ' ', ' ', ' '] ++ fieldChars x)) ++
              ('\n' :: ' ' :: ' ' :: '\x7d' :: rest))) := by
        have := parseCore_scalar g2 kv.2 hkv [' '] _ (by decide) hT
        simpa using this
      have h6 : parseCore (g2 + 1) 2 ('\n' :: (joinSep [',', '\n']
          ((kv2 :: t2).map (fun x => [' ', ' ', ' ', ' '] ++ fieldChars x)) ++
            ('\n' :: ' ' :: ' ' :: '\x7d' :: rest))) =
          some (.fields (kv2 :: t2), rest) := by
        apply ih (g2 + 1) rest (List.cons_ne_nil kv2 t2)
          (fun x hx => hsc x (List.mem_cons_of_mem kv hx))
        simp at hf ⊢
        omega
      exact parseCore_fields_cons (g2 + 1) _ _ _ _ _ _ _ _ kv.2 (kv2 :: t2)
        (skipWs_fieldline kv _) (parseStrChars_roundtrip _ _)
        (skipWs_not_ws ':' _ (by decide)) h4
        (skipWs_not_ws ',' _ (by decide)) h6

/-- A printed record object starts with its opening brace. -/
theorem skipWs_record_text (r : EmailRecord) (tail : List Char) :
    skipWs (recordObjChars r ++ tail) =
      '\x7b' :: (('\n' :: (joinSep [',', '\n']
        ((recordFields r).map (fun x => [' ', ' ', ' ', ' '] ++ fieldChars x)) ++
        '\n' :: [' ', ' ', '\x7d'])) ++ tail) :=
  skipWs_not_ws _ _ (by decide)

/-- The text of a non-empty field block starts, after whitespace, with
the quote of the first key. -/
theorem skipWs_fields_exposes_quote (kv : String × Json)
    (t : List (String × Json)) (tail : List Char) :
    ∃ w, skipWs ('\n' :: (joinSep [',', '\n']
        ((kv :: t).map (fun x => [' ', ' ', ' ', ' '] ++ fieldChars x)) ++ tail)) =
      '"' :: w := by
  cases t with
  | nil =>
    refine ⟨kv.1.toList.flatMap escapeChar ++
      '"' :: (':' :: ' ' :: (scalarChars kv.2 ++ tail)), ?_⟩
    have hstep : ('\n' :: (joinSep [',', '\n']
        ([kv].map (fun x => [' ', ' ', ' ', ' '] ++ fieldChars x)) ++ tail)) =
        '\n' :: ' ' :: ' ' :: ' ' :: ' ' :: (fieldChars kv ++ tail) := by
      show '\n' :: (([' ', ' ', ' ', ' '] ++ fieldChars kv) ++ tail) = _
      simp
    rw [hstep]
    exact skipWs_fieldline kv tail
  | cons kv2 t2 =>
    refine ⟨kv.1.toList.flatMap escapeChar ++
      '"' :: (':' :: ' ' :: (scalarChars kv.2 ++ (',' :: '\n' :: (joinSep [',', '\n']
        ((kv2 :: t2).map (fun x => [' ', ' ', ' ', ' '] ++ fieldChars x)) ++
        tail)))), ?_⟩
    have hstep : ('\n' :: (joinSep [',', '\n']
        ((kv :: kv2 :: t2).map (fun x => [' ', ' ', ' ', ' '] ++ fieldChars x)) ++
          tail)) =
        '\n' :: ' ' :: ' ' :: ' ' :: ' ' ::
          (fieldChars kv ++ (',' :: '\n' :: (joinSep [',', '\n']
            ((kv2 :: t2).map (fun x => [' ', ' ', ' ', ' '] ++ fieldChars x)) ++
            tail))) := by
      show '\n' :: (((([' ', ' ', ' ', ' '] ++ fieldChars kv) ++ [',', '\n']) ++
        joinSep [',', '\n']
          ((kv2 :: t2).map (fun x => [' ', ' ', ' ', ' '] ++ fieldChars x))) ++
        tail) = _
      simp
    rw [hstep]
    exact skipWs_fieldline kv _

/-- Parsing one printed record object with leading whitespace. -/
theorem parseCore_record (r : EmailRecord) (f : Nat) (pre rest : List Char)
    (hpre : ∀ c ∈ pre, isJsonWs c = true)
    (hf : (recordFields r).length + 2 ≤ f) :
    parseCore f 0 (pre ++ (recordObjChars r ++ rest)) =
      some (.val (.obj (recordFields r)), rest) := by
  obtain ⟨g, rfl⟩ : ∃ g, f = g + 1 := ⟨f - 1, by omega⟩
  have hobj : recordObjChars r ++ rest =
      '\x7b' :: ('\n' :: (joinSep [',', '\n']
        ((recordFields r).map (fun x => [' ', ' ', ' ', ' '] ++ fieldChars x)) ++
        ('\n' :: ' ' :: ' ' :: '\x7d' :: rest))) := by
    unfold recordObjChars
    simp
  have h1 : skipWs (pre ++ (recordObjChars r ++ rest)) =
      '\x7b' :: ('\n' :: (joinSep [',', '\n']
        ((recordFields r).map (fun x => [' ', ' ', ' ', ' '] ++ fieldChars x)) ++
        ('\n' :: ' ' :: ' ' :: '\x7d' :: rest))) := by
    rw [skipWs_ws_append _ _ hpre, hobj]
    exact skipWs_not_ws _ _ (by decide)
  obtain ⟨kv, t, hft⟩ : ∃ kv t, recordFields r = kv :: t := by
    cases hh : recordFields r with
    | nil => exact absurd hh (recordFields_ne_nil r)
    | cons a b => exact ⟨a, b, rfl⟩
  obtain ⟨w, hw⟩ := skipWs_fields_exposes_quote kv t
    ('\n' :: ' ' :: ' ' :: '\x7d' :: rest)
  have h2 : skipWs ('\n' :: (joinSep [',', '\n']
      ((recordFields r).map (fun x => [' ', ' ', ' ', ' '] ++ fieldChars x)) ++
      ('\n' :: ' ' :: ' ' :: '\x7d' :: rest))) = '"' :: w := by
    rw [hft]
    exact hw
  have h3 : parseCore g 2 ('\n' :: (joinSep [',', '\n']
      ((recordFields r).map (fun x => [' ', ' ', ' ', ' '] ++ fieldChars x)) ++
      ('\n' :: ' ' :: ' ' :: '\x7d' :: rest))) =
      some (.fields (recordFields r), rest) :=
    parseCore_fields_all (recordFields r) g rest (recordFields_ne_nil r)
      (recordFields_scalar r) (by omega)
  exact parseCore_obj_value g _ _ w _ (recordFields r) h1 h2 h3

/-- The text of a non-empty record list starts, after whitespace, with
the brace of the first record. -/
theorem skipWs_items_exposes_brace (r0 : EmailRecord) (t : List EmailRecord)
    (tail : List Char) :
    ∃ w, skipWs ('\n' :: (joinSep [',', '\n']
        ((r0 :: t).map (fun r => [' ', ' '] ++ recordObjChars r)) ++ tail)) =
      '\x7b' :: w := by
  cases t with
  | nil =>
    refine ⟨('\n' :: (joinSep [',', '\n']
      ((recordFields r0).map (fun x => [' ', ' ', ' ', ' '] ++ fieldChars x)) ++
      '\n' :: [' ', ' ', '\x7d'])) ++ tail, ?_⟩
    have hstep : ('\n' :: (joinSep [',', '\n']
        ([r0].map (fun r => [' ', ' '] ++ recordObjChars r)) ++ tail)) =
        ['\n', ' ', ' '] ++ (recordObjChars r0 ++ tail) := by
      show '\n' :: (([' ', ' '] ++ recordObjChars r0) ++ tail) = _
      simp
    rw [hstep, skipWs_ws_append _ _ (by decide)]
    exact skipWs_record_text r0 tail
  | cons r1 t2 =>
    refine ⟨('\n' :: (joinSep [',', '\n']
      ((recordFields r0).map (fun x => [' ', ' ', ' ', ' '] ++ fieldChars x)) ++
      '\n' :: [' ', ' ', '\x7d'])) ++ (',' :: '\n' :: (joinSep [',', '\n']
        ((r1 :: t2).map (fun r => [' ', ' '] ++ recordObjChars r)) ++ tail)), ?_⟩
    have hstep : ('\n' :: (joinSep [',', '\n']
        ((r0 :: r1 :: t2).map (fun r => [' ', ' '] ++ recordObjChars r)) ++ tail)) =
        ['\n', ' ', ' '] ++ (recordObjChars r0 ++ (',' :: '\n' :: (joinSep [',', '\n']
          ((r1 :: t2).map (fun r => [' ', ' '] ++ recordObjChars r)) ++ tail))) := by
      show '\n' :: (((([' ', ' '] ++ recordObjChars r0) ++ [',', '\n']) ++
        joinSep [',', '\n']
          ((r1 :: t2).map (fun r => [' ', ' '] ++ recordObjChars r))) ++ tail) = _
      simp
    rw [hstep, skipWs_ws_append _ _ (by decide)]
    exact skipWs_record_text r0 _

/-- Parsing the printed items of a non-empty record list. -/
theorem parseCore_items_all (rs : List EmailRecord) :
    ∀ (f : Nat) (rest : List Char), rs ≠ [] → rs.length + 9 ≤ f →
      parseCore f 1
        ('\n' :: (joinSep [',', '\n']
            (rs.map (fun r => [' ', ' '] ++ recordObjChars r)) ++
          ('\n' :: ']' :: rest))) =
        some (.items (rs.map (fun r => Json.obj (recordFields r))), rest) := by
  induction rs with
  | nil => intro f rest hne; exact absurd rfl hne
  | cons r0 t ih =>
    intro f rest hne hf
    obtain ⟨g, rfl⟩ : ∃ g, f = g + 1 := ⟨f - 1, by simp at hf; omega⟩
    have hflen := recordFields_length r0
    cases t with
    | nil =>
      have hstep : ('\n' :: (joinSep [',', '\n']
          ([r0].map (fun r => [' ', ' '] ++ recordObjChars r)) ++
            ('\n' :: ']' :: rest))) =
          ['\n', ' ', ' '] ++ (recordObjChars r0 ++ ('\n' :: ']' :: rest)) := by
        show '\n' :: (([' ', ' '] ++ recordObjChars r0) ++ ('\n' :: ']' :: rest)) = _
        simp
      rw [hstep]
      have h1 : parseCore g 0
          (['\n', ' ', ' '] ++ (recordObjChars r0 ++ ('\n' :: ']' :: rest))) =
          some (.val (.obj (recordFields r0)), '\n' :: ']' :: rest) :=
        parseCore_record r0 g ['\n', ' ', ' '] _ (by decide)
          (by simp at hf; omega)
      have h2 : skipWs ('\n' :: ']' :: rest) = ']' :: rest := by
        rw [show ('\n' :: ']' :: rest) = ['\n'] ++ (']' :: rest) from rfl,
          skipWs_ws_append _ _ (by decide)]
        exact skipWs_not_ws _ _ (by decide)
      exact parseCore_items_last g _ _ _ _ h1 h2
    | cons r1 t2 =>
      have hstep : ('\n' :: (joinSep [',', '\n']
          ((r0 :: r1 :: t2).map (fun r => [' ', ' '] ++ recordObjChars r)) ++
            ('\n' :: ']' :: rest))) =
          ['\n', ' ', ' '] ++ (recordObjChars r0 ++ (',' :: '\n' ::
            (joinSep [',', '\n']
              ((r1 :: t2).map (fun r => [' ', ' '] ++ recordObjChars r)) ++
              ('\n' :: ']' :: rest)))) := by
        show '\n' :: (((([' ', ' '] ++ recordObjChars r0) ++ [',', '\n']) ++
          joinSep [',', '\n']
            ((r1 :: t2).map (fun r => [' ', ' '] ++ recordObjChars r))) ++
          ('\n' :: ']' :: rest)) = _
        simp
      rw [hstep]
      have h1 : parseCore g 0
          (['\n', ' ', ' '] ++ (recordObjChars r0 ++ (',' :: '\n' ::
            (joinSep [',', '\n']
              ((r1 :: t2).map (fun r => [' ', ' '] ++ recordObjChars r)) ++
              ('\n' :: ']' :: rest))))) =
          some (.val (.obj (recordFields r0)), ',' :: '\n' ::
            (joinSep [',', '\n']
              ((r1 :: t2).map (fun r => [' ', ' '] ++ recordObjChars r)) ++
              ('\n' :: ']' :: rest))) :=
        parseCore_record r0 g ['\n', ' ', ' '] _ (by decide)
          (by simp at hf; omega)
      have h3 : parseCore g 1 ('\n' :: (joinSep [',', '\n']
          ((r1 :: t2).map (fun r => [' ', ' '] ++ recordObjChars r)) ++
          ('\n' :: ']' :: rest))) =
          some (.items ((r1 :: t2).map (fun r => Json.obj (recordFields r))),
            rest) := by
        apply ih g rest (List.cons_ne_nil r1 t2)
        simp at hf ⊢
        omega
      exact parseCore_items_cons g _ _ _ _ _ _ h1
        (skipWs_not_ws ',' _ (by decide)) h3

/-- A printed record object is at least six characters. -/
theorem recordObjChars_length (r : EmailRecord) :
    6 ≤ (recordObjChars r).length := by
  unfold recordObjChars
  simp

/-- Items of length at least eight keep the joined length at least eight
per item. -/
theorem joinSep_length_ge8 (sep : List Char) (l : List (List Char))
    (h : ∀ x ∈ l, 8 ≤ x.length) : 8 * l.length ≤ (joinSep sep l).length := by
  induction l with
  | nil => simp
  | cons x xs ih =>
    cases xs with
    | nil =>
      have hx := h x (List.mem_cons_self x [])
      simpa using hx
    | cons y ys =>
      have hx := h x (List.mem_cons_self x (y :: ys))
      have hr := ih (fun z hz => h z (List.mem_cons_of_mem x hz))
      show 8 * ((y :: ys).length + 1) ≤
        (((x ++ sep) ++ joinSep sep (y :: ys))).length
      simp only [List.length_append]
      simp only [List.length_cons] at hr ⊢
      omega

/-- Lower bound on the printed length of a non-empty email array. -/
theorem printEmails_length (rs : List EmailRecord) (h : rs ≠ []) :
    8 * rs.length + 4 ≤ (printEmailsJson rs).length := by
  cases rs with
  | nil => exact absurd rfl h
  | cons r0 t =>
    have hitem : ∀ x ∈ (r0 :: t).map (fun r => [' ', ' '] ++ recordObjChars r),
        8 ≤ x.length := by
      intro x hx
      simp only [List.mem_map] at hx
      obtain ⟨r, hr, rfl⟩ := hx
      have := recordObjChars_length r
      simp only [List.length_append]
      simp
      omega
    have hj := joinSep_length_ge8 [',', '\n'] _ hitem
    show 8 * (r0 :: t).length + 4 ≤
      ('[' :: '\n' :: (joinSep [',', '\n']
        ((r0 :: t).map (fun r => [' ', ' '] ++ recordObjChars r)) ++
        '\n' :: [']'])).length
    simp only [List.length_cons, List.length_append, List.length_map] at hj ⊢
    omega

/-- Parsing the full written text recovers the encoded email array. -/
theorem jsonParse_printEmails (rs : List EmailRecord) :
    jsonParse (String.mk (printEmailsJson rs)) = some (encodeEmails rs) := by
  cases rs with
  | nil => rfl
  | cons r0 t =>
    unfold jsonParse
    rw [show (String.mk (printEmailsJson (r0 :: t))).toList =
      printEmailsJson (r0 :: t) from rfl]
    rw [show 2 * (String.mk (printEmailsJson (r0 :: t))).length + 2 =
      2 * (printEmailsJson (r0 :: t)).length + 2 from rfl]
    have hlen := printEmails_length (r0 :: t) (List.cons_ne_nil r0 t)
    obtain ⟨g, hg⟩ : ∃ g, 2 * (printEmailsJson (r0 :: t)).length + 2 = g + 1 :=
      ⟨2 * (printEmailsJson (r0 :: t)).length + 1, by omega⟩
    rw [hg]
    have htext : printEmailsJson (r0 :: t) =
        '[' :: ('\n' :: (joinSep [',', '\n']
          ((r0 :: t).map (fun r => [' ', ' '] ++ recordObjChars r)) ++
          ('\n' :: ']' :: []))) := by
      show '[' :: '\n' :: (joinSep [',', '\n']
        ((r0 :: t).map (fun r => [' ', ' '] ++ recordObjChars r)) ++
        '\n' :: [']']) = _
      simp
    rw [htext]
    obtain ⟨w, hw⟩ := skipWs_items_exposes_brace r0 t ('\n' :: ']' :: [])
    have h3 : parseCore g 1 ('\n' :: (joinSep [',', '\n']
        ((r0 :: t).map (fun r => [' ', ' '] ++ recordObjChars r)) ++
        ('\n' :: ']' :: []))) =
        some (.items ((r0 :: t).map (fun r => Json.obj (recordFields r))), []) := by
      apply parseCore_items_all (r0 :: t) g [] (List.cons_ne_nil r0 t)
      simp only [List.length_cons] at hlen ⊢
      omega
    have h0 : parseCore (g + 1) 0 ('[' :: ('\n' :: (joinSep [',', '\n']
        ((r0 :: t).map (fun r => [' ', ' '] ++ recordObjChars r)) ++
        ('\n' :: ']' :: [])))) =
        some (.val (.arr ((r0 :: t).map (fun r => Json.obj (recordFields r)))),
          []) :=
      parseCore_arr_value g _ _ w _ _ (skipWs_not_ws '[' _ (by decide)) hw h3
    rw [h0]
    rfl

/-! ## Claim theorems -/

/-- Claim C1: for every sequence of refs returned by the list call, the
output of fetchCVSEmails has exactly one record per ref, in the same
order, each record carrying the id of its ref; no record is dropped even
when extraction of a message fails (extraction is total). -/
theorem fetch_one_record_per_ref (g : GmailClient) (now : CivilDate)
    (refs : List MessageRef)
    (h : g.listResult (cvsQuery now) listMaxResults = .ok (some refs)) :
    fetchCVSEmails g now = .ok (refs.map (fun m => extractEmailData g.getResult m.id)) ∧
    (refs.map (fun m => extractEmailData g.getResult m.id)).length = refs.length ∧
    ∀ i (h1 : i < (refs.map (fun m => extractEmailData g.getResult m.id)).length)
      (h2 : i < refs.length),
      ((refs.map (fun m => extractEmailData g.getResult m.id)).get ⟨i, h1⟩).id =
        (refs.get ⟨i, h2⟩).id :=
  ⟨fetch_eq_map_of_list_some g now refs h, List.length_map _ _,
    fun i h1 h2 => map_extract_get_id g.getResult refs i h1 h2⟩

/-- Witness for claim C1 at a concrete client with one succeeding and
one failing message. -/
theorem fetch_one_record_per_ref_witness :
    gW.listResult (cvsQuery nowW) listMaxResults = .ok (some refsW) ∧
    fetchCVSEmails gW nowW = .ok (refsW.map (fun m => extractEmailData gW.getResult m.id)) :=
  ⟨rfl, (fetch_one_record_per_ref gW nowW refsW rfl).1⟩

/-- Claim C2: a throwing metadata fetch never propagates: the record has
the error message in its error field and null to, date and timestamp
fields; and the record for a ref depends only on the fetch result for
that ref, so other refs are unaffected. -/
theorem extract_error_record_isolated (get : String → Except String GetResp)
    (messageId e : String) (h : get messageId = .error e) :
    extractEmailData get messageId =
      { id := messageId, «to» := none, date := none, timestamp := .null, error := some e } ∧
    ∀ get2 : String → Except String GetResp, get2 messageId = get messageId →
      extractEmailData get2 messageId = extractEmailData get messageId := by
  constructor
  · unfold extractEmailData
    rw [h]
  · intro get2 h2
    unfold extractEmailData
    rw [h2]

/-- Witness for claim C2 at the fixture client, whose fetch of m2 throws. -/
theorem extract_error_record_isolated_witness :
    gW.getResult "m2" = .error "network down" ∧
    extractEmailData gW.getResult "m2" =
      { id := "m2", «to» := none, date := none, timestamp := .null,
        error := some "network down" } :=
  ⟨rfl, (extract_error_record_isolated gW.getResult "m2" "network down" rfl).1⟩

/-- Claim C3: for every valid injected current date, the query built for
the list call is the concatenation of the label clause, the subject
clause and an after clause whose date is the current date minus six
local calendar days (not wall-clock hours), formatted yyyy/MM/dd from
the local date fields. -/
theorem query_lower_bound_six_days (now : CivilDate) (hv : now.Valid) :
    cvsQuery now =
      "label:CVS" ++ " " ++ "subject:$4 Coupon!" ++ " " ++
        ("after:" ++ formatDate (prevCalendarDay^[6] now)) := by
  unfold cvsQuery
  rw [setDateMinus6_eq_prev6 now hv, ← strAppend_assoc]
  congr 1

/-- Witness for claim C3 at the concrete date 2024-03-10 named by the
spec, whose emitted lower bound is 2024/03/04. -/
theorem query_lower_bound_six_days_witness :
    nowW.Valid ∧
    cvsQuery nowW =
      "label:CVS" ++ " " ++ "subject:$4 Coupon!" ++ " " ++
        ("after:" ++ formatDate (prevCalendarDay^[6] nowW)) ∧
    cvsQuery nowW = "label:CVS subject:$4 Coupon! after:2024/03/04" :=
  ⟨by decide, query_lower_bound_six_days nowW (by decide), by decide⟩

/-- Claim C5: a list reply with zero matching messages gives the empty
record list without failing, and a list reply with at most 500 refs
gives exactly one record per ref in provider order. -/
theorem fetch_zero_and_capped (g : GmailClient) (now : CivilDate) :
    (∀ data, g.listResult (cvsQuery now) listMaxResults = .ok data →
      data.getD [] = [] → fetchCVSEmails g now = .ok []) ∧
    (∀ refs, g.listResult (cvsQuery now) listMaxResults = .ok (some refs) →
      refs.length ≤ listMaxResults →
      fetchCVSEmails g now = .ok (refs.map (fun m => extractEmailData g.getResult m.id)) ∧
      (refs.map (fun m => extractEmailData g.getResult m.id)).length = refs.length ∧
      ∀ i (h1 : i < (refs.map (fun m => extractEmailData g.getResult m.id)).length)
        (h2 : i < refs.length),
        ((refs.map (fun m => extractEmailData g.getResult m.id)).get ⟨i, h1⟩).id =
          (refs.get ⟨i, h2⟩).id) := by
  constructor
  · intro data hl hd
    unfold fetchCVSEmails
    rw [hl]
    simp [hd]
  · intro refs hl _
    exact ⟨fetch_eq_map_of_list_some g now refs hl, List.length_map _ _,
      fun i h1 h2 => map_extract_get_id g.getResult refs i h1 h2⟩

/-- Witness for claim C5: the zero-match client yields the empty list
and the two-ref client yields both records. -/
theorem fetch_zero_and_capped_witness :
    fetchCVSEmails gEmptyW nowW = .ok [] ∧
    fetchCVSEmails gW nowW = .ok (refsW.map (fun m => extractEmailData gW.getResult m.id)) :=
  ⟨(fetch_zero_and_capped gEmptyW nowW).1 (some []) rfl rfl,
    ((fetch_zero_and_capped gW nowW).2 refsW rfl (by decide)).1⟩

/-- Counterexample to claim C4 as stated: for a fetched message whose
internalDate is present but has no numeric prefix, the timestamp field
is NaN, not the null the claim requires for an unparsable field. -/
theorem timestamp_unparsable_is_nan_not_null :
    (extractEmailData gTsW "ts-bad").timestamp = TsVal.nan ∧
    TsVal.nan ≠ TsVal.null :=
  ⟨by decide, by decide⟩

/-- Claim C4 (amended): on the success path the timestamp field is the
parseInt value when internalDate is nonempty with a numeric prefix, null
when internalDate is absent or empty, and NaN when internalDate is
nonempty without a numeric prefix. -/
theorem timestamp_parse_cases (get : String → Except String GetResp)
    (messageId : String) (resp : GetResp) (headers : List Header)
    (h : get messageId = .ok resp) (hp : resp.payload = some headers) :
    ((resp.internalDate = none ∨ resp.internalDate = some "") →
      (extractEmailData get messageId).timestamp = .null) ∧
    (∀ s n, resp.internalDate = some s → s ≠ "" → jsParseInt s = some n →
      (extractEmailData get messageId).timestamp = .int n) ∧
    (∀ s, resp.internalDate = some s → s ≠ "" → jsParseInt s = none →
      (extractEmailData get messageId).timestamp = .nan) := by
  obtain ⟨pl, idate⟩ := resp
  have hp2 : pl = some headers := hp
  subst hp2
  unfold extractEmailData
  rw [h]
  dsimp only
  refine ⟨?_, ?_, ?_⟩
  · rintro (h1 | h1)
    · have h2 : idate = none := h1
      subst h2
      rfl
    · have h2 : idate = some "" := h1
      subst h2
      rfl
  · intro s n hs hne hparse
    have h2 : idate = some s := hs
    subst h2
    simp [tsOfInternalDate, hne, hparse]
  · intro s hs hne hparse
    have h2 : idate = some s := hs
    subst h2
    simp [tsOfInternalDate, hne, hparse]

/-- Witness for the amended claim C4 at concrete numeric and absent
internalDate values. -/
theorem timestamp_parse_cases_witness :
    gTsW "ts-num" = .ok ⟨some [], some "1710000000000"⟩ ∧
    (extractEmailData gTsW "ts-num").timestamp = .int 1710000000000 ∧
    (extractEmailData gTsW "ts-none").timestamp = .null :=
  ⟨rfl,
    (timestamp_parse_cases gTsW "ts-num" ⟨some [], some "1710000000000"⟩ [] rfl
      rfl).2.1 "1710000000000" 1710000000000 rfl (by decide) (by decide),
    (timestamp_parse_cases gTsW "ts-none" ⟨some [], none⟩ [] rfl rfl).1 (Or.inl rfl)⟩

/-! ## Lemmas about the phone-collection loop -/

/-- The push loop of saveEmailData computes the filterMap description of
the specification. -/
theorem phoneLoop_eq_phonesSpec (m : List (String × String))
    (emails : List EmailRecord) :
    phoneLoop m emails = phonesSpec m emails := by
  induction emails with
  | nil => rfl
  | cons e rest ih =>
    rw [phonesSpec, List.filterMap_cons]
    cases ht : e.«to» with
    | none =>
      rw [phoneLoop, ht]
      simpa [phonesSpec] using ih
    | some a =>
      rw [phoneLoop, ht]
      by_cases ha : a = ""
      · simp [ha, phonesSpec, ih]
      · cases hl : jsLookup m a with
        | none => simpa [ha, hl, phonesSpec] using ih
        | some p =>
          by_cases hp : p = "" <;> simp [ha, hl, hp, phonesSpec, ih]

/-- With an empty mapping the loop collects nothing. -/
theorem phoneLoop_nil_map (emails : List EmailRecord) :
    phoneLoop [] emails = [] := by
  induction emails with
  | nil => rfl
  | cons e rest ih =>
    cases ht : e.«to» with
    | none => rw [phoneLoop, ht]; exact ih
    | some a =>
      rw [phoneLoop, ht]
      by_cases ha : a = "" <;> simp [ha, jsLookup, ih]

/-- Counterexample to claim C6 as stated: for the mapping with the entry
a@x.com mapped to the empty string and one record addressed to a@x.com,
the recipient is a key of the mapping, but the falsy-value check in the
loop skips it, so the result is empty instead of the claimed one-element
sequence. -/
theorem save_phones_key_with_empty_value :
    (loadMapping mfEmptyPhoneW).2 = [("a@x.com", "")] ∧
    phonesOf (saveEmailData eC6W mfEmptyPhoneW true) = [] ∧
    ([] : List String) ≠ [""] :=
  ⟨rfl, rfl, by decide⟩

/-- Claim C6 (amended): the phone sequence of saveEmailData consists of
the mapped phone number of every record whose nonempty recipient is a
key of the loaded mapping with a nonempty value, duplicates allowed, in
record order. -/
theorem save_phones_spec (emails : List EmailRecord) (mappingFile : Option String)
    (r : SaveResult) (h : saveEmailData emails mappingFile true = .ok r) :
    r.phoneNumbers = phonesSpec (loadMapping mappingFile).2 emails := by
  have h2 : (⟨String.mk (printEmailsJson emails), (loadMapping mappingFile).1,
      phoneLoop (loadMapping mappingFile).2 emails⟩ : SaveResult) = r := by
    simpa [saveEmailData] using h
  rw [← h2]
  exact phoneLoop_eq_phonesSpec _ _

/-- Witness for the amended claim C6 at the specification example: the
mapping maps a@x.com to 555-0100, the records go to a@x.com and b@x.com,
and the result is exactly the one phone number. -/
theorem save_phones_spec_witness :
    saveEmailData e6W mfGoodW true = .ok saveResW ∧
    saveResW.phoneNumbers = phonesSpec (loadMapping mfGoodW).2 e6W ∧
    saveResW.phoneNumbers = ["555-0100"] :=
  ⟨rfl, save_phones_spec e6W mfGoodW saveResW rfl, by decide⟩

/-- Claim C7: a missing or unreadable mapping file is not fatal: the
run still writes the serialized emails, records the warning, and returns
the empty phone sequence. -/
theorem save_missing_mapping_not_fatal (emails : List EmailRecord) :
    saveEmailData emails none true =
      .ok ⟨String.mk (printEmailsJson emails), true, []⟩ := by
  simp [saveEmailData, loadMapping, phoneLoop_nil_map]

/-- Claim C8: the local-callback handler closes the listener exactly
once on every path (success, missing code, exchange or persist failure,
response-write failure), and a redirect request without a code parameter
answers 400, closes, and rejects the pending authorization. -/
theorem callback_close_once_and_missing_code_400 (code : Option String)
    (respondOk : Bool) (exchange : String → Except String Json) (persistOk : Bool) :
    closeCount (handlerTrace code respondOk exchange persistOk) = 1 ∧
    (code = none → respondOk = true →
      handlerTrace code respondOk exchange persistOk =
        [.respond 400, .close, .reject "No authorization code received"]) := by
  constructor
  · cases code with
    | none => cases respondOk <;> simp [handlerTrace, closeCount]
    | some c =>
      cases respondOk
      · simp [handlerTrace, closeCount]
      · cases hx : exchange c with
        | ok t => cases persistOk <;> simp [handlerTrace, closeCount, hx]
        | error e => simp [handlerTrace, closeCount, hx]
  · rintro rfl rfl
    rfl

/-- Witness for claim C8 at a concrete missing-code request. -/
theorem callback_close_once_witness :
    closeCount (handlerTrace none true (fun _ => .error "no exchange") true) = 1 ∧
    handlerTrace none true (fun _ => .error "no exchange") true =
      [.respond 400, .close, .reject "No authorization code received"] :=
  ⟨(callback_close_once_and_missing_code_400 none true
      (fun _ => .error "no exchange") true).1,
    (callback_close_once_and_missing_code_400 none true
      (fun _ => .error "no exchange") true).2 rfl rfl⟩

/-- Claim C10: a cached token file whose contents JSON.parse rejects is
treated exactly like an absent token file: the failure is caught and the
new authorization flow runs instead of the run failing. -/
theorem token_parse_failure_starts_new_flow (s : String)
    (newToken : Except String Json) (h : jsonParse s = none) :
    getAuthenticatedGmail (some s) newToken = getAuthenticatedGmail none newToken ∧
    (∀ t, newToken = .ok t →
      getAuthenticatedGmail (some s) newToken = .ok (.fresh t)) := by
  constructor
  · unfold getAuthenticatedGmail
    dsimp only
    rw [h]
  · rintro t rfl
    unfold getAuthenticatedGmail
    dsimp only
    rw [h]

/-- Witness for claim C10 at the unparsable token file content of a
single opening brace. -/
theorem token_parse_failure_starts_new_flow_witness :
    jsonParse "\x7b" = none ∧
    getAuthenticatedGmail (some "\x7b") (.ok .null) =
      getAuthenticatedGmail none (.ok .null) ∧
    getAuthenticatedGmail (some "\x7b") (.ok .null) = .ok (.fresh .null) :=
  ⟨rfl, (token_parse_failure_starts_new_flow "\x7b" (.ok .null) rfl).1,
    (token_parse_failure_starts_new_flow "\x7b" (.ok .null) rfl).2 .null rfl⟩

/-! ## Value-level decode lemmas and claim C9 -/

/-- Decoding inverts encoding for a record without NaN. -/
theorem decodeRecord_encode (r : EmailRecord) (h : r.timestamp ≠ TsVal.nan) :
    decodeRecord (Json.obj (recordFields r)) = some r := by
  obtain ⟨i, t, d, ts, err⟩ := r
  cases err <;> cases t <;> cases d <;> cases ts <;>
    simp_all [recordFields, decodeRecord, decodeOptStr, decodeTs, optStrJson, tsJson]

/-- Decoding inverts encoding for a record list without NaN. -/
theorem decodeEmails_encode (rs : List EmailRecord)
    (h : ∀ r ∈ rs, r.timestamp ≠ TsVal.nan) :
    decodeEmails (encodeEmails rs) = some rs := by
  induction rs with
  | nil => rfl
  | cons r t ih =>
    have hr : r.timestamp ≠ TsVal.nan := h r (List.mem_cons_self r t)
    have ht := ih (fun x hx => h x (List.mem_cons_of_mem r hx))
    have ht2 : (t.map (fun x => Json.obj (recordFields x))).mapM decodeRecord =
        some t := by
      simpa [decodeEmails, encodeEmails] using ht
    show ((r :: t).map (fun x => Json.obj (recordFields x))).mapM decodeRecord =
      some (r :: t)
    rw [List.map_cons, List.mapM_cons, decodeRecord_encode r hr, ht2]
    rfl

/-- Counterexample to claim C9 as stated: a record whose timestamp is
NaN is written as null, so parsing the written file yields a record with
a null timestamp, not one equal field-for-field to the input. -/
theorem roundtrip_nan_not_identity :
    (jsonParse (writtenOf (saveEmailData [rNanW] none true))).bind decodeEmails =
      some [⟨"n1", none, none, TsVal.null, none⟩] ∧
    (⟨"n1", none, none, TsVal.null, none⟩ : EmailRecord) ≠ rNanW := by
  constructor
  · decide
  · decide

/-- Claim C9 (amended): for every records sequence in which no record
carries a NaN timestamp, parsing the JSON text saveEmailData writes
yields a sequence equal field-for-field to the input records. -/
theorem save_written_roundtrip (emails : List EmailRecord)
    (mappingFile : Option String) (res : SaveResult)
    (hs : saveEmailData emails mappingFile true = .ok res)
    (h : ∀ r ∈ emails, r.timestamp ≠ TsVal.nan) :
    (jsonParse res.written).bind decodeEmails = some emails := by
  have h2 : (⟨String.mk (printEmailsJson emails), (loadMapping mappingFile).1,
      phoneLoop (loadMapping mappingFile).2 emails⟩ : SaveResult) = res := by
    simpa [saveEmailData] using hs
  rw [← h2]
  show (jsonParse (String.mk (printEmailsJson emails))).bind decodeEmails =
    some emails
  rw [jsonParse_printEmails emails]
  show decodeEmails (encodeEmails emails) = some emails
  exact decodeEmails_encode emails h

/-- Witness for the amended claim C9 at a concrete success record and a
concrete error record. -/
theorem save_written_roundtrip_witness :
    saveEmailData e9W none true =
      .ok ⟨String.mk (printEmailsJson e9W), true, []⟩ ∧
    (∀ r ∈ e9W, r.timestamp ≠ TsVal.nan) ∧
    (jsonParse (String.mk (printEmailsJson e9W))).bind decodeEmails = some e9W :=
  ⟨rfl, by decide,
    save_written_roundtrip e9W none
      ⟨String.mk (printEmailsJson e9W), true, []⟩ rfl (by decide)⟩

end CVScrape
